import Mathlib

/-!
Verification development for the `explain-explainer` repository
(PostgreSQL EXPLAIN parser and plan-to-English translator).

The TypeScript sources `src/parser/postgres-parser.ts`,
`src/translator/explanations.ts` and `src/translator/translator.ts` are
shallowly embedded below.  Conventions used throughout:

* JavaScript strings are modelled as `String` for stored data and as
  `List Char` inside the character-level scanners; all scanning is done on
  `List Char` so every definition is a structural recursion that the kernel
  can evaluate.
* JavaScript `number` is modelled as `Nat` for the integer-valued fields
  (`rows`, `width`, `loops`, `workers`, buffer counts, which the source
  produces with `parseInt` from `\d+` groups) and as the exact fraction
  type `JNum` below for the float-valued fields (costs, times).  All
  numerals occurring in the claims are exactly representable, so the exact
  model agrees with IEEE doubles on everything proved here.
* An absent (`undefined`) optional field is `none`; JavaScript truthiness
  tests (`node.rows && ...`) are embedded explicitly: `undefined`, `0` and
  `""` are falsy.
* Regular-expression matching is embedded as deterministic character-level
  scanning with the same leftmost/greedy/lazy behaviour as the concrete
  regexes of the source on their input language, as documented at each
  matcher.
-/

namespace ExplainPG

/-- Whitespace class used for the `\s` of the source's regexes and for
`trim`.  The lines being scanned contain only spaces and tabs (plus the
`\r` of Windows line ends, removed by `trim`), so the ASCII whitespace set
of `Char.isWhitespace` coincides with JavaScript `\s` on all inputs. -/
def isWsChar (c : Char) : Bool := c.isWhitespace

/-- The `\w` word-character class of JavaScript regexes (ASCII letters,
digits, underscore). -/
def isWordChar (c : Char) : Bool := c.isAlpha || c.isDigit || c = '_'

/-- `trim` on a character list (both ends), as JavaScript `String.trim`. -/
def trimChars (cs : List Char) : List Char :=
  ((cs.dropWhile isWsChar).reverse.dropWhile isWsChar).reverse

/-- Value of a digit string (the `parseInt` of a `\d+` group). -/
def digitsToNat (ds : List Char) : Nat :=
  ds.foldl (fun n c => 10 * n + (c.toNat - 48)) 0

/-- Does `needle` occur as a contiguous substring?  Embeds JavaScript
`String.includes`. -/
def hasSubstr (needle : List Char) : List Char → Bool
  | [] => needle.isEmpty
  | c :: cs => needle.isPrefixOf (c :: cs) || hasSubstr needle cs

/-- All positions at which `needle` occurs (used to embed the
leftmost-first and greedy backtracking orders of unanchored regexes). -/
def subPositions (needle cs : List Char) : List Nat :=
  (List.range (cs.length + 1)).filter (fun i => needle.isPrefixOf (cs.drop i))

/-- First position (in the given candidate order) at which `f` succeeds. -/
def firstSome {α : Type} (f : Nat → Option α) : List Nat → Option α
  | [] => none
  | i :: is => match f i with
    | some a => some a
    | none => firstSome f is

/-- Split on a separator character (JavaScript `String.split(',')`). -/
def splitOnChar (sep : Char) (cs : List Char) : List (List Char) :=
  match cs with
  | [] => [[]]
  | c :: rest =>
    let tail := splitOnChar sep rest
    if c = sep then [] :: tail
    else match tail with
      | [] => [[c]]
      | t :: ts => (c :: t) :: ts

/-- Split a raw text into lines at `'\n'` (JavaScript `text.split('\n')`). -/
def splitLines (cs : List Char) : List (List Char) := splitOnChar '\n' cs

/-- Insertion-order-preserving de-duplication: the order-preserving
semantics of JavaScript `[...new Set(list)]`. -/
def dedupFirst (l : List String) : List String :=
  go [] l
where
  go (seen : List String) : List String → List String
    | [] => []
    | x :: xs => if x ∈ seen then go seen xs else x :: go (x :: seen) xs

/-- An exact JavaScript number: an unnormalized fraction `num / den` with
`den` positive in every constructed value.  (Mathlib's `Rat` carries
normalization proofs that block kernel evaluation, so this development
uses its own structural fractions; every arithmetic operation below is the
exact rational operation.) -/
structure JNum where
  num : Int
  den : Nat
deriving Repr, DecidableEq

/-- Embed a natural number. -/
def JNum.ofNat (n : Nat) : JNum := ⟨n, 1⟩

instance : OfNat JNum n := ⟨JNum.ofNat n⟩

/-- Exact addition. -/
def JNum.add (a b : JNum) : JNum :=
  ⟨a.num * b.den + b.num * a.den, a.den * b.den⟩

/-- Exact subtraction. -/
def JNum.sub (a b : JNum) : JNum :=
  ⟨a.num * b.den - b.num * a.den, a.den * b.den⟩

/-- Exact multiplication. -/
def JNum.mul (a b : JNum) : JNum := ⟨a.num * b.num, a.den * b.den⟩

/-- Exact division.  Division by zero (which JavaScript maps to
`Infinity`) yields an arbitrary value; every division performed by the
embedded code is by a positive number. -/
def JNum.div (a b : JNum) : JNum :=
  if 0 < b.num then ⟨a.num * b.den, a.den * b.num.toNat⟩
  else if b.num < 0 then ⟨-(a.num * b.den), a.den * (-b.num).toNat⟩
  else ⟨0, 1⟩

/-- Absolute value (`Math.abs`). -/
def JNum.abs (a : JNum) : JNum := ⟨|a.num|, a.den⟩

/-- Exact strict comparison by cross multiplication. -/
def JNum.lt (a b : JNum) : Bool :=
  decide (a.num * (b.den : Int) < b.num * (a.den : Int))

/-- `a > b`. -/
def JNum.gt (a b : JNum) : Bool := JNum.lt b a

/-- Value equality (the fractions denote the same rational). -/
def JNum.valEq (a b : JNum) : Bool :=
  decide (a.num * (b.den : Int) = b.num * (a.den : Int))

/-- Truthiness of a number value (`0` falsy). -/
def JNum.truthy (a : JNum) : Bool := !(a.num = 0 : Bool)

/-- Floor to a natural number (all floored values are non-negative). -/
def JNum.floorNat (a : JNum) : Nat := (a.num.fdiv a.den).toNat

/-- One preprocessed line: `ParserLine` of `parser-types.ts`. -/
structure ParserLine where
  indent : Nat
  content : String
  raw : String
deriving Repr, DecidableEq

/-- A planner cost or timing range (`{startup, total}`). -/
structure CostPair where
  startup : JNum
  total : JNum
deriving Repr, DecidableEq

/-- The `buffers.shared` statistics of `ParsedNode`. -/
structure SharedBuffers where
  hit : Nat
  read : Option Nat
  dirtied : Option Nat
  written : Option Nat
deriving Repr, DecidableEq

/-- The scalar (non-`children`) fields of `ParsedNode` from `types.ts`.
`alias` is a keyword in Lean, so that field is named `aliasName`.  The
`batches`/`buckets`/`temp`-buffer fields are carried for completeness;
nothing in the sources ever assigns them. -/
structure NodeData where
  nodeType : String
  operation : Option String := none
  tableName : Option String := none
  indexName : Option String := none
  aliasName : Option String := none
  cost : Option CostPair := none
  actualTime : Option CostPair := none
  rows : Option Nat := none
  actualRows : Option Nat := none
  width : Option Nat := none
  loops : Option Nat := none
  workers : Option Nat := none
  buffers : Option SharedBuffers := none
  filter : Option String := none
  indexCond : Option String := none
  joinCond : Option String := none
  hashCond : Option String := none
  sortKey : Option (List String) := none
  groupKey : Option (List String) := none
  batches : Option Nat := none
  buckets : Option Nat := none
  memoryUsage : Option String := none
  diskUsage : Option String := none
  raw : String := ""
deriving Repr, DecidableEq

/-- `ParsedNode` of `types.ts`: the scalar fields plus the ordered list of
children. -/
inductive ParsedNode where
  | mk (data : NodeData) (children : List ParsedNode)
deriving Repr

/-- The scalar fields of a node. -/
def ParsedNode.data : ParsedNode → NodeData
  | .mk d _ => d

/-- The ordered children of a node. -/
def ParsedNode.children : ParsedNode → List ParsedNode
  | .mk _ c => c

/-- `ParseResult` of `types.ts` (with `databaseType` fixed by the
PostgreSQL parser). -/
structure ParseResultT where
  databaseType : String
  root : Option ParsedNode
  planningTime : Option JNum := none
  executionTime : Option JNum := none
  error : Option String := none

/-- `TranslationResult` of `types.ts`. -/
structure TranslationResult where
  summary : String
  steps : List String
  warnings : List String
  recommendations : List String
deriving Repr, DecidableEq

/-- `calculateIndent`: leading whitespace weight, one unit per space and
four per tab, stopping at the first other character. -/
def calculateIndent : List Char → Nat
  | ' ' :: rest => 1 + calculateIndent rest
  | '\t' :: rest => 4 + calculateIndent rest
  | _ => 0

/-- `parseLines`: split into lines, drop blank lines, record indent and
trimmed content, and drop the `Planning Time:` / `Execution Time:` banner
lines. -/
def parseLines (text : List Char) : List ParserLine :=
  (splitLines text).filterMap (fun line =>
    let content := trimChars line
    if content.isEmpty then none
    else if ("Planning Time:".toList.isPrefixOf content) then none
    else if ("Execution Time:".toList.isPrefixOf content) then none
    else some { indent := calculateIndent line
                content := String.mk content
                raw := String.mk line })

/-! ### Line classifier (`isNodeLine`) -/

/-- The fixed property-line prefixes of `isNodeLine`; any of them forces
classification as a property line. -/
def propertyIndicatorsList : List String :=
  ["Sort Key:", "Group Key:", "Filter:", "Index Cond:", "Join Filter:",
   "Hash Cond:", "Workers Planned:", "Workers Launched:", "Buffers:",
   "Rows Removed by"]

/-- The regex `/^[A-Z][a-zA-Z\s]+\s*\(/` of the node indicators: an upper
case letter, then a nonempty run of letters and whitespace, then `(`.
(The regex classes `[a-zA-Z\s]+` followed by `\s*` admit exactly the
letters-and-whitespace runs, and `(` is in neither class, so the regex
matches iff the maximal such run after the first character is nonempty and
is followed by `(`.) -/
def matchesUpperParen (cs : List Char) : Bool :=
  match cs with
  | [] => false
  | c :: rest =>
    ('A' ≤ c && c ≤ 'Z') &&
      (let run := rest.takeWhile (fun x => x.isAlpha || isWsChar x)
       !run.isEmpty && ((rest.drop run.length).head? == some '('))

/-- A regex `/^Word\s/` test: the literal prefix followed by one
whitespace character. -/
def startsTok (w : String) (cs : List Char) : Bool :=
  w.toList.isPrefixOf cs && ((cs.drop w.length).head?.map isWsChar).getD false

/-- `isNodeLine` on a line's trimmed content: property prefixes force
`false`; otherwise any of the fixed node indicators makes it a node
header. -/
def isNodeContent (cs : List Char) : Bool :=
  if propertyIndicatorsList.any (fun p => p.toList.isPrefixOf cs) then false
  else
    hasSubstr "(cost=".toList cs || hasSubstr "(never executed)".toList cs ||
    hasSubstr "->".toList cs || matchesUpperParen cs ||
    startsTok "Limit" cs || startsTok "Sort" cs || startsTok "Hash" cs ||
    startsTok "Nested Loop" cs || startsTok "Merge" cs || startsTok "Aggregate" cs ||
    startsTok "Group" cs || startsTok "Unique" cs || startsTok "Subquery Scan" cs ||
    startsTok "Seq Scan" cs || startsTok "Index" cs || startsTok "Bitmap" cs ||
    startsTok "CTE Scan" cs || startsTok "Foreign Scan" cs || startsTok "Custom Scan" cs ||
    startsTok "Gather" cs || startsTok "Parallel" cs

/-- `isNodeLine` of the parser. -/
def isNodeLine (l : ParserLine) : Bool := isNodeContent l.content.toList

/-! ### Node-header shape patterns (`patterns` of the parser)

The three header patterns are embedded as character scanners.  A regex of
the form `^(.+?)\s+LITERAL...` matches with the lazy group ending at the
first position from which the rest of the regex matches; the scanners
below try each split position from the left, requiring at least one
character in the group, which is exactly that behaviour. -/

/-- A `\d+` group followed by `parseInt`. -/
def parseNatTok (cs : List Char) : Option (Nat × List Char) :=
  let ds := cs.takeWhile Char.isDigit
  if ds.isEmpty then none
  else some (digitsToNat ds, cs.drop ds.length)

/-- A `(\d+\.?\d*?)` group followed by `parseFloat`, in the contexts
`..` / whitespace / `)` of the cost patterns.  The optional dot is taken
when followed by digits (or alone before a non-dot), and both dots of a
following `..` are left to the caller, matching the greedy `\.?` with the
lazy `\d*?` of the regex on these followers. -/
def parseNumTok (cs : List Char) : Option (JNum × List Char) :=
  let ds := cs.takeWhile Char.isDigit
  if ds.isEmpty then none
  else
    let intVal : JNum := JNum.ofNat (digitsToNat ds)
    let rest := cs.drop ds.length
    match rest with
    | '.' :: r2 =>
      match r2 with
      | [] => some (intVal, r2)
      | d :: _ =>
        if d.isDigit then
          let fs := r2.takeWhile Char.isDigit
          some (intVal.add ((JNum.ofNat (digitsToNat fs)).div (JNum.ofNat (10 ^ fs.length))),
            r2.drop fs.length)
        else if d = '.' then some (intVal, rest)
        else some (intVal, r2)
    | _ => some (intVal, rest)

/-- Expect a literal. -/
def expectLit (w : String) (cs : List Char) : Option (List Char) :=
  if w.toList.isPrefixOf cs then some (cs.drop w.length) else none

/-- Expect `\s+` (at least one whitespace character; the following literal
is never whitespace, so the maximal run is the only viable one). -/
def expectWsPlus (cs : List Char) : Option (List Char) :=
  let t := cs.dropWhile isWsChar
  if t.length < cs.length then some t else none

/-- The cost/rows/width groups of header patterns 1 and 2. -/
structure CostExtract where
  startup : JNum
  total : JNum
  rows : Nat
  width : Nat
deriving Repr, DecidableEq

/-- The `actual time=..` suffix groups of header pattern 1. -/
structure ActualExtract where
  startup : JNum
  total : JNum
  rows : Nat
  loops : Nat
deriving Repr, DecidableEq

/-- At a fixed split position: `\s+\(cost=N..N\s+rows=D\s+width=D\)`,
returning the extraction and the characters after the closing paren. -/
def probeCost (cs : List Char) : Option (CostExtract × List Char) :=
  match expectWsPlus cs with
  | none => none
  | some r0 =>
    match expectLit "(cost=" r0 with
    | none => none
    | some r1 =>
      match parseNumTok r1 with
      | none => none
      | some (c1, r2) =>
        match expectLit ".." r2 with
        | none => none
        | some r3 =>
          match parseNumTok r3 with
          | none => none
          | some (c2, r4) =>
            match expectWsPlus r4 with
            | none => none
            | some r5 =>
              match expectLit "rows=" r5 with
              | none => none
              | some r6 =>
                match parseNatTok r6 with
                | none => none
                | some (rw, r7) =>
                  match expectWsPlus r7 with
                  | none => none
                  | some r8 =>
                    match expectLit "width=" r8 with
                    | none => none
                    | some r9 =>
                      match parseNatTok r9 with
                      | none => none
                      | some (wd, r10) =>
                        match expectLit ")" r10 with
                        | none => none
                        | some r11 => some (⟨c1, c2, rw, wd⟩, r11)

/-- The optional ANALYZE suffix
`\s+\(actual time=N..N\s+rows=D\s+loops=D\)$`; must consume everything. -/
def parseActualTail (cs : List Char) : Option ActualExtract :=
  match expectWsPlus cs with
  | none => none
  | some r0 =>
    match expectLit "(actual time=" r0 with
    | none => none
    | some r1 =>
      match parseNumTok r1 with
      | none => none
      | some (t1, r2) =>
        match expectLit ".." r2 with
        | none => none
        | some r3 =>
          match parseNumTok r3 with
          | none => none
          | some (t2, r4) =>
            match expectWsPlus r4 with
            | none => none
            | some r5 =>
              match expectLit "rows=" r5 with
              | none => none
              | some r6 =>
                match parseNatTok r6 with
                | none => none
                | some (ar, r7) =>
                  match expectWsPlus r7 with
                  | none => none
                  | some r8 =>
                    match expectLit "loops=" r8 with
                    | none => none
                    | some r9 =>
                      match parseNatTok r9 with
                      | none => none
                      | some (lp, r10) =>
                        match expectLit ")" r10 with
                        | none => none
                        | some r11 => if r11.isEmpty then some ⟨t1, t2, ar, lp⟩ else none

/-- Header pattern 1 at a fixed split position: the cost shape, then
either end of line (optional suffix absent) or the full ANALYZE suffix. -/
def probeP1 (cs : List Char) : Option (CostExtract × Option ActualExtract) :=
  match probeCost cs with
  | none => none
  | some (e, rest) =>
    if rest.isEmpty then some (e, none)
    else
      match parseActualTail rest with
      | some a => some (e, some a)
      | none => none

/-- Header pattern 2 at a fixed split position: the cost shape anchored at
end of line. -/
def probeP2 (cs : List Char) : Option CostExtract :=
  match probeCost cs with
  | none => none
  | some (e, rest) => if rest.isEmpty then some e else none

/-- Header pattern 3 at a fixed split position:
`\s+\(never executed\)`, unanchored at the end. -/
def probeNever (cs : List Char) : Option Unit :=
  match expectWsPlus cs with
  | none => none
  | some r0 =>
    if "(never executed)".toList.isPrefixOf r0 then some () else none

/-- Scan the split positions of a `^(.+?)...` regex from the left: the
first position (with a nonempty group) from which `probe` succeeds wins;
returns the group's raw characters and the probe's result. -/
def scanSplitAux {α : Type} (probe : List Char → Option α) (acc : List Char) :
    List Char → Option (List Char × α)
  | [] => none
  | c :: cs =>
    match probe (c :: cs) with
    | some a => some (acc.reverse, a)
    | none => scanSplitAux probe (c :: acc) cs

/-- Entry point of the split scan (the group takes at least one char). -/
def scanSplit {α : Type} (probe : List Char → Option α) (cs : List Char) :
    Option (List Char × α) :=
  match cs with
  | [] => none
  | c :: cs' => scanSplitAux probe [c] cs'

/-- Full match of header pattern 1 against a line content. -/
def matchPattern1 (cs : List Char) : Option (List Char × CostExtract × Option ActualExtract) :=
  scanSplit probeP1 cs

/-- Full match of header pattern 2. -/
def matchPattern2 (cs : List Char) : Option (List Char × CostExtract) :=
  scanSplit probeP2 cs

/-- Full match of header pattern 3. -/
def matchPattern3 (cs : List Char) : Option (List Char × Unit) :=
  scanSplit probeNever cs

/-! ### Table / index / operation resolver (`extractTableAndIndexInfo`) -/

/-- After a matched `on`: `\s+(\w+)(?:\s+(\w+))?$` — one or two
whitespace-separated word tokens reaching the end of the string. -/
def wordTokEnd (cs : List Char) : Option (String × Option String) :=
  let t1 := cs.dropWhile isWsChar
  if t1.length = cs.length then none
  else
    let w1 := t1.takeWhile isWordChar
    if w1.isEmpty then none
    else
      let r := t1.drop w1.length
      if r.isEmpty then some (String.mk w1, none)
      else
        let r1 := r.dropWhile isWsChar
        if r1.length = r.length then none
        else
          let w2 := r1.takeWhile isWordChar
          if w2.isEmpty || !(r1.drop w2.length).isEmpty then none
          else some (String.mk w1, some (String.mk w2))

/-- After a matched literal: `\s+(\w+)(?:\s+(\w+))?` with no end anchor —
the greedy optional alias is taken whenever whitespace and a word
follow. -/
def wordTokOpen (cs : List Char) : Option (String × Option String) :=
  let t1 := cs.dropWhile isWsChar
  if t1.length = cs.length then none
  else
    let w1 := t1.takeWhile isWordChar
    if w1.isEmpty then none
    else
      let r := t1.drop w1.length
      let r1 := r.dropWhile isWsChar
      if r1.length = r.length then some (String.mk w1, none)
      else
        let w2 := r1.takeWhile isWordChar
        if w2.isEmpty then some (String.mk w1, none)
        else some (String.mk w1, some (String.mk w2))

/-- After a matched literal: `\s+(\w+)`, one word token, no end anchor. -/
def wordTokSingle (cs : List Char) : Option String :=
  let t1 := cs.dropWhile isWsChar
  if t1.length = cs.length then none
  else
    let w1 := t1.takeWhile isWordChar
    if w1.isEmpty then none else some (String.mk w1)

/-- Scan for the leftmost position at which `probe` succeeds (the
unanchored leftmost-match rule of JavaScript `String.match`). -/
def scanFirst {α : Type} (probe : List Char → Option α) : List Char → Option α
  | [] => none
  | c :: cs =>
    match probe (c :: cs) with
    | some a => some a
    | none => scanFirst probe cs

/-- Table pattern 1: `/on\s+(\w+)(?:\s+(\w+))?$/` at one position. -/
def probeOnEnd (cs : List Char) : Option (String × Option String) :=
  match cs with
  | 'o' :: 'n' :: rest => wordTokEnd rest
  | _ => none

/-- Table pattern 2: `/Seq Scan on\s+(\w+)(?:\s+(\w+))?/` at one
position. -/
def probeSeqScanOn (cs : List Char) : Option (String × Option String) :=
  if "Seq Scan on".toList.isPrefixOf cs then wordTokOpen (cs.drop 11) else none

/-- Table pattern 3: `/Index.*Scan.*on\s+(\w+)(?:\s+(\w+))?/`.  Leftmost
`Index`, then the greedy `.*`s backtrack from the rightmost `Scan` and
`on` positions. -/
def tableIdxMatch (cs : List Char) : Option (String × Option String) :=
  firstSome (fun p =>
    let afterIdx := cs.drop (p + 5)
    firstSome (fun q =>
      let afterScan := afterIdx.drop (q + 4)
      firstSome (fun r => wordTokOpen (afterScan.drop (r + 2)))
        ((subPositions "on".toList afterScan).reverse))
      ((subPositions "Scan".toList afterIdx).reverse))
    (subPositions "Index".toList cs)

/-- Table pattern 4: `/Bitmap.*Scan on\s+(\w+)(?:\s+(\w+))?/`. -/
def tableBitmapMatch (cs : List Char) : Option (String × Option String) :=
  firstSome (fun p =>
    let after := cs.drop (p + 6)
    firstSome (fun q => wordTokOpen (after.drop (q + 7)))
      ((subPositions "Scan on".toList after).reverse))
    (subPositions "Bitmap".toList cs)

/-- Index pattern 1: `/Index.*Scan using\s+(\w+)/`. -/
def idxUsingMatch (cs : List Char) : Option String :=
  firstSome (fun p =>
    let afterIdx := cs.drop (p + 5)
    firstSome (fun q => wordTokSingle (afterIdx.drop (q + 10)))
      ((subPositions "Scan using".toList afterIdx).reverse))
    (subPositions "Index".toList cs)

/-- Index pattern 2: `/Bitmap Index Scan on\s+(\w+)/` at one position. -/
def probeBitmapIdxOn (cs : List Char) : Option String :=
  if "Bitmap Index Scan on".toList.isPrefixOf cs then wordTokSingle (cs.drop 20)
  else none

/-- The ordered `operationPatterns` table: `/^(X)/` prefix tests paired
with the canonical operation tag; first match wins. -/
def operationPatternsList : List (String × String) :=
  [("Seq Scan", "Seq Scan"), ("Index Scan", "Index Scan"),
   ("Index Only Scan", "Index Only Scan"), ("Bitmap Heap Scan", "Bitmap Heap Scan"),
   ("Bitmap Index Scan", "Bitmap Index Scan"), ("Nested Loop", "Nested Loop"),
   ("Hash Join", "Hash Join"), ("Merge Join", "Merge Join"), ("Sort", "Sort"),
   ("Hash", "Hash"), ("Aggregate", "Aggregate"), ("Limit", "Limit"),
   ("Gather", "Gather"), ("Gather Merge", "Gather Merge"),
   ("Parallel Seq Scan", "Parallel Seq Scan")]

/-- First matching operation pattern, if any. -/
def findOperation (nt : List Char) : Option String :=
  (operationPatternsList.find? (fun pr => pr.1.toList.isPrefixOf nt)).map (·.2)

/-- The table-name pass of `extractTableAndIndexInfo`: the four
`tableMatches` patterns in order, first match setting table and alias. -/
def resolveTable (nt : List Char) (d : NodeData) : NodeData :=
  match scanFirst probeOnEnd nt with
  | some (t, al) => { d with tableName := some t, aliasName := al }
  | none =>
    match scanFirst probeSeqScanOn nt with
    | some (t, al) => { d with tableName := some t, aliasName := al }
    | none =>
      match tableIdxMatch nt with
      | some (t, al) => { d with tableName := some t, aliasName := al }
      | none =>
        match tableBitmapMatch nt with
        | some (t, al) => { d with tableName := some t, aliasName := al }
        | none => d

/-- The index-name pass: the two `indexMatches` patterns in order. -/
def resolveIndex (nt : List Char) (d : NodeData) : NodeData :=
  match idxUsingMatch nt with
  | some ix => { d with indexName := some ix }
  | none =>
    match scanFirst probeBitmapIdxOn nt with
    | some ix => { d with indexName := some ix }
    | none => d

/-- The operation pass: the first matching `operationPatterns` entry. -/
def resolveOperation (nt : List Char) (d : NodeData) : NodeData :=
  match findOperation nt with
  | some op => { d with operation := some op }
  | none => d

/-- `extractTableAndIndexInfo`: three independent first-match-wins passes
over the node's `nodeType` text, setting table name and alias, index name,
and the canonical operation tag.  (None of the passes changes `nodeType`,
so running each on the original header text is the source's behaviour.) -/
def extractTableAndIndexInfo (d : NodeData) : NodeData :=
  resolveOperation d.nodeType.toList
    (resolveIndex d.nodeType.toList (resolveTable d.nodeType.toList d))

/-! ### Node creation (`parseNode`) -/

/-- The `content.replace(/^->\s*/, '')` arrow strip. -/
def stripArrow (cs : List Char) : List Char :=
  match cs with
  | '-' :: '>' :: rest => rest.dropWhile isWsChar
  | _ => cs

/-- Spread a cost-pattern extraction onto the base node (pattern 1 with
optional suffix, or pattern 2 with `a = none`).  An absent suffix leaves
`actualTime`/`actualRows`/`loops` absent, not zero. -/
def applyCostExtract (base : NodeData) (g1 : List Char) (e : CostExtract)
    (a : Option ActualExtract) : NodeData :=
  { base with
    nodeType := String.mk (trimChars g1)
    cost := some ⟨e.startup, e.total⟩
    rows := some e.rows
    width := some e.width
    actualTime := a.map (fun x => ⟨x.startup, x.total⟩)
    actualRows := a.map (·.rows)
    loops := a.map (·.loops) }

/-- The bare node before any pattern groups are applied: `nodeType` is the
arrow-stripped content, `raw` the original line, all else `undefined`. -/
def baseNode (content : List Char) (raw : String) : NodeData :=
  { nodeType := String.mk content, raw := raw }

/-- The three header shape patterns tried most-specific first; the first
match wins and assigns its groups onto the bare node. -/
def patternNode (content : List Char) (raw : String) : NodeData :=
  match matchPattern1 content with
  | some (g1, e, a) => applyCostExtract (baseNode content raw) g1 e a
  | none =>
    match matchPattern2 content with
    | some (g1, e) => applyCostExtract (baseNode content raw) g1 e none
    | none =>
      match matchPattern3 content with
      | some (g1, _) =>
        { baseNode content raw with
            nodeType := String.mk (trimChars g1)
            actualRows := some 0
            loops := some 0 }
      | none => baseNode content raw

/-- The body of `parseNode` for a line already classified as a node
header: strip the arrow, try the three header patterns in order (first
match wins), then run the resolver. -/
def parseNodeData (l : ParserLine) : NodeData :=
  extractTableAndIndexInfo (patternNode (stripArrow l.content.toList) l.raw)

/-- `parseNode`: `null` for non-header lines. -/
def parseNode (l : ParserLine) : Option NodeData :=
  if isNodeLine l then some (parseNodeData l) else none

/-! ### Property extraction (`propertyPatterns` / `parseNodeProperty`) -/

/-- The `\s*(.+)$` group after a matched property label: fails on an empty
remainder; otherwise the greedy `\s*` backtracks just enough to leave at
least one character for the group. -/
def propGroup (rest : List Char) : Option (List Char) :=
  if rest.isEmpty then none
  else some (rest.drop (min (rest.takeWhile isWsChar).length (rest.length - 1)))

/-- `Sort Key:` extractor: split the group on commas and trim each key. -/
def propSortKey (content : List Char) (d : NodeData) : Option NodeData :=
  if "Sort Key:".toList.isPrefixOf content then
    (propGroup (content.drop 9)).map (fun g =>
      { d with sortKey := some ((splitOnChar ',' g).map (fun p => String.mk (trimChars p))) })
  else none

/-- `Group Key:` extractor. -/
def propGroupKey (content : List Char) (d : NodeData) : Option NodeData :=
  if "Group Key:".toList.isPrefixOf content then
    (propGroup (content.drop 10)).map (fun g =>
      { d with groupKey := some ((splitOnChar ',' g).map (fun p => String.mk (trimChars p))) })
  else none

/-- `Filter:` extractor (verbatim group). -/
def propFilter (content : List Char) (d : NodeData) : Option NodeData :=
  if "Filter:".toList.isPrefixOf content then
    (propGroup (content.drop 7)).map (fun g => { d with filter := some (String.mk g) })
  else none

/-- `Index Cond:` extractor. -/
def propIndexCond (content : List Char) (d : NodeData) : Option NodeData :=
  if "Index Cond:".toList.isPrefixOf content then
    (propGroup (content.drop 11)).map (fun g => { d with indexCond := some (String.mk g) })
  else none

/-- `Join Filter:` extractor (stored in `joinCond`). -/
def propJoinFilter (content : List Char) (d : NodeData) : Option NodeData :=
  if "Join Filter:".toList.isPrefixOf content then
    (propGroup (content.drop 12)).map (fun g => { d with joinCond := some (String.mk g) })
  else none

/-- `Hash Cond:` extractor. -/
def propHashCond (content : List Char) (d : NodeData) : Option NodeData :=
  if "Hash Cond:".toList.isPrefixOf content then
    (propGroup (content.drop 10)).map (fun g => { d with hashCond := some (String.mk g) })
  else none

/-- `Workers Planned:` extractor: `\s*(\d+)$`. -/
def propWorkers (content : List Char) (d : NodeData) : Option NodeData :=
  if "Workers Planned:".toList.isPrefixOf content then
    let rest := (content.drop 16).dropWhile isWsChar
    let ds := rest.takeWhile Char.isDigit
    if ds.isEmpty || !(rest.drop ds.length).isEmpty then none
    else some { d with workers := some (digitsToNat ds) }
  else none

/-- One optional `(?:\s+label=(\d+))?` group of the buffers pattern:
consumed when present, otherwise the position is unchanged. -/
def tryOptNum (lbl : String) (cs : List Char) : Option Nat × List Char :=
  let t := cs.dropWhile isWsChar
  if t.length < cs.length && lbl.toList.isPrefixOf t then
    let r := t.drop lbl.length
    let ds := r.takeWhile Char.isDigit
    if ds.isEmpty then (none, cs) else (some (digitsToNat ds), r.drop ds.length)
  else (none, cs)

/-- `Buffers:` extractor:
`/^Buffers:\s*shared hit=(\d+)(?:\s+read=(\d+))?(?:\s+dirtied=(\d+))?(?:\s+written=(\d+))?/`. -/
def propBuffers (content : List Char) (d : NodeData) : Option NodeData :=
  if "Buffers:".toList.isPrefixOf content then
    let r0 := (content.drop 8).dropWhile isWsChar
    if "shared hit=".toList.isPrefixOf r0 then
      let r1 := r0.drop 11
      let ds := r1.takeWhile Char.isDigit
      if ds.isEmpty then none
      else
        let rest := r1.drop ds.length
        let pr1 := tryOptNum "read=" rest
        let pr2 := tryOptNum "dirtied=" pr1.2
        let pr3 := tryOptNum "written=" pr2.2
        some { d with buffers := some ⟨digitsToNat ds, pr1.1, pr2.1, pr3.1⟩ }
    else none
  else none

/-- `parseNodeProperty`: try the property patterns in their fixed order;
the first one that fully matches assigns its field; otherwise the line is
a silent no-op. -/
def parseNodeProperty (l : ParserLine) (d : NodeData) : NodeData :=
  let cs := l.content.toList
  ((((((((propSortKey cs d).or (propGroupKey cs d)).or (propFilter cs d)).or
      (propIndexCond cs d)).or (propJoinFilter cs d)).or (propHashCond cs d)).or
      (propWorkers cs d)).or (propBuffers cs d)).getD d

/-! ### Tree builder (`buildTree`)

The source builds the tree by mutation: each `parseNode` result is pushed
on a stack together with its indent, popping first every frame whose
indent is `≥` the new line's indent and appending the new node to the
children array of the surviving top (if any); property lines directly
following a pushed header (while deeper than it and not headers
themselves) are assigned onto that node; the first node object becomes
`root` and is returned at the end.

The functional embedding below is attach-on-pop: a frame holds the node's
scalar data, its indent, and the children accumulated so far (in reverse);
a frame's finished subtree is appended to the frame below it when it is
popped, and the bottom frame — necessarily the first node, i.e. the
`root` object of the source — finishes into the result slot (frames that
reach the bottom after the root has finished are the source's unreachable
orphans and are dropped, exactly as they are unreachable from `root`).
Because a node's children are attached to it before it is itself popped,
and frames are popped in LIFO order, the parent and order of every
attachment coincide with the source's attach-on-push mutation.  Property
consumption is tracked by a `collecting` flag: the source's inner loop
consumes the run of lines directly after a non-root header that are deeper
than it and not headers; the first line that breaks the run is re-examined
by the outer loop, which ignores it when it is not a header.  The `root
=== null` branch of the source pushes the first node and `continue`s,
skipping property consumption for the root, hence `collecting := false`
there. -/

/-- A stack frame of the tree builder. -/
structure Frame where
  data : NodeData
  indent : Nat
  childrenRev : List ParsedNode
deriving Repr

/-- Finish a frame into a node (children back in insertion order). -/
def closeFrame (f : Frame) : ParsedNode :=
  .mk f.data f.childrenRev.reverse

/-- Collapse a popped run of frames, top first: each finished frame is
appended to the children of the next one down. -/
def squashAux (t : ParsedNode) : List Frame → ParsedNode
  | [] => t
  | g :: rest => squashAux (closeFrame { g with childrenRev := t :: g.childrenRev }) rest

/-- The single subtree formed by a nonempty popped run (top first). -/
def squash : List Frame → Option ParsedNode
  | [] => none
  | f :: rest => some (squashAux (closeFrame f) rest)

/-- Pop every frame with indent `≥ cur` (the `while` loop of
`buildTree`), attaching the collapsed subtree to the new top; when the
stack empties, the collapsed subtree finishes into the result slot if the
root has not finished yet, and is dropped (orphan) otherwise. -/
def popAttach (stack : List Frame) (cur : Nat) (r : Option ParsedNode) :
    List Frame × Option ParsedNode :=
  match squash (stack.takeWhile (fun f => cur ≤ f.indent)),
      stack.dropWhile (fun f => cur ≤ f.indent), r with
  | none, rest, r' => (rest, r')
  | some t, g :: rest', r' => ({ g with childrenRev := t :: g.childrenRev } :: rest', r')
  | some t, [], none => ([], some t)
  | some _, [], some x => ([], some x)

/-- One line of the `buildTree` loop: the next (stack, finished-root,
collecting) state.  A node header (non-root) pops, attaches, pushes and
opens a property run; the first header just pushes (the source's
`continue` skips its property run); a non-header line is applied to the
open header's node while the run is active and deeper, and otherwise
closes the run and is skipped. -/
def buildStep (l : ParserLine) (stack : List Frame) (r : Option ParsedNode)
    (collecting : Bool) : List Frame × Option ParsedNode × Bool :=
  if isNodeLine l then
    if stack.isEmpty && r.isNone then
      ([⟨parseNodeData l, l.indent, []⟩], r, false)
    else
      (⟨parseNodeData l, l.indent, []⟩ :: (popAttach stack l.indent r).1,
        (popAttach stack l.indent r).2, true)
  else
    match stack with
    | [] => ([], r, false)
    | f :: rest =>
      if collecting then
        if f.indent < l.indent then
          ({ f with data := parseNodeProperty l f.data } :: rest, r, true)
        else (f :: rest, r, false)
      else (f :: rest, r, false)

/-- The main loop of `buildTree` over the preprocessed lines.  `r` is the
finished root (set once the first node's frame is popped), `collecting`
is true while inside the property run of the latest non-root header. -/
def buildTreeAux : List ParserLine → List Frame → Option ParsedNode → Bool →
    Option ParsedNode
  | [], stack, r, _ => (popAttach stack 0 r).2
  | l :: ls, stack, r, collecting =>
    buildTreeAux ls (buildStep l stack r collecting).1
      (buildStep l stack r collecting).2.1 (buildStep l stack r collecting).2.2

/-- `buildTree`: empty line list gives a null root. -/
def buildTree (lines : List ParserLine) : Option ParsedNode :=
  if lines.isEmpty then none else buildTreeAux lines [] none false

/-! ### Timing extraction and `parse` -/

/-- `Planning Time:\s*(\d+\.?\d*)\s*ms` (resp. Execution) at one
position; the group here is greedy `\d*`, covered by the same number
token. -/
def probeTiming (lbl : String) (cs : List Char) : Option JNum :=
  if lbl.toList.isPrefixOf cs then
    let r0 := (cs.drop lbl.length).dropWhile isWsChar
    match parseNumTok r0 with
    | none => none
    | some (v, r1) =>
      if "ms".toList.isPrefixOf (r1.dropWhile isWsChar) then some v else none
  else none

/-- `extractTimings` over the raw text. -/
def extractTimings (text : List Char) : Option JNum × Option JNum :=
  (scanFirst (probeTiming "Planning Time:") text,
   scanFirst (probeTiming "Execution Time:") text)

/-- `parse` of `PostgresExplainParser`.  The body of the source's `try`
block — `parseLines`, `buildTree`, `extractTimings` — contains no `throw`
and calls no throwing operation, so the `catch` branch that would set
`error` is unreachable: `parse` always returns with `error` unset. -/
def parse (text : String) : ParseResultT :=
  let lines := parseLines text.toList
  let t := extractTimings text.toList
  { databaseType := "postgresql"
    root := buildTree lines
    planningTime := t.1
    executionTime := t.2
    error := none }

/-! ### Explanation formatters (`explanations.ts`)

JavaScript template interpolation of an `undefined` field renders the
string `"undefined"`; truthiness tests make `undefined`, `0` and `""`
falsy; an array (even an empty one) is truthy.  Number rendering
(`toFixed`) is embedded as exact rounding on rationals, which agrees with
IEEE doubles on every value occurring in this development. -/

/-- `${field}` interpolation of an optional string. -/
def optStr (o : Option String) : String := o.getD "undefined"

/-- Truthiness of an optional string (`undefined` and `""` falsy). -/
def truthyS (o : Option String) : Bool :=
  match o with
  | some s => !s.isEmpty
  | none => false

/-- Truthiness of an optional number (`undefined` and `0` falsy). -/
def truthyN (o : Option Nat) : Bool :=
  match o with
  | some n => n != 0
  | none => false

/-- The underlying string of a truthy optional string. -/
def strOf (o : Option String) : String := o.getD ""

/-- The `node.workers || 1` default. -/
def workersOr1 (o : Option Nat) : Nat :=
  match o with
  | some n => if n != 0 then n else 1
  | none => 1

/-- The plural suffix `${node.rows === 1 ? '' : 's'}`. -/
def sfx (o : Option Nat) : String := if o == some 1 then "" else "s"

/-- `toFixed(1)` of a non-negative rational. -/
def toFixed1 (q : JNum) : String :=
  let m := ((q.mul 10).add ((1 : JNum).div 2)).floorNat
  toString (m / 10) ++ "." ++ toString (m % 10)

/-- `toFixed(0)` of a non-negative rational. -/
def toFixed0 (q : JNum) : String := toString (q.add ((1 : JNum).div 2)).floorNat

/-- `toFixed(2)` of a non-negative rational. -/
def toFixed2 (q : JNum) : String :=
  let m := ((q.mul 100).add ((1 : JNum).div 2)).floorNat
  toString (m / 100) ++ "." ++
    (if m % 100 < 10 then "0" ++ toString (m % 100) else toString (m % 100))

/-- `formatNumber` of `explanations.ts`. -/
def formatNumber (o : Option Nat) : String :=
  match o with
  | none => "0"
  | some n =>
    if n < 1000 then toString n
    else if n < 1000000 then toFixed1 ((JNum.ofNat n).div 1000) ++ "K"
    else toFixed1 ((JNum.ofNat n).div 1000000) ++ "M"

/-- Global literal replacement (`.replace(/LIT/g, rep)` for a literal
pattern): non-overlapping, left to right.  The fuel argument starts at the
list length, which the scan never exceeds. -/
def replaceAllGo (pat rep : List Char) : Nat → List Char → List Char
  | 0, l => l
  | _ + 1, [] => []
  | n + 1, c :: cs =>
    if pat.isPrefixOf (c :: cs) then
      rep ++ replaceAllGo pat rep n ((c :: cs).drop (max pat.length 1))
    else c :: replaceAllGo pat rep n cs

/-- Global literal replacement entry point. -/
def replaceAllLit (pat rep cs : List Char) : List Char :=
  replaceAllGo pat rep cs.length cs

/-- The character class of the `::`-cast stripper:
`[\w\s\[\]']` (word, whitespace, brackets, apostrophe). -/
def isCastChar (c : Char) : Bool :=
  isWordChar c || isWsChar c || c = '[' || c = ']' || c = '\''

/-- `.replace(/::[\w\s\[\]']+/g, '')`: remove every `::` followed by a
nonempty run of cast-class characters; a `::` without such a run does not
match and scanning resumes at its second colon. -/
def stripCastsGo : Nat → List Char → List Char
  | 0, l => l
  | _ + 1, [] => []
  | n + 1, ':' :: ':' :: cs =>
    let run := cs.takeWhile isCastChar
    if run.isEmpty then ':' :: stripCastsGo n (':' :: cs)
    else stripCastsGo n (cs.drop run.length)
  | n + 1, c :: cs => c :: stripCastsGo n cs

/-- `::`-cast stripper entry point. -/
def stripCasts (cs : List Char) : List Char := stripCastsGo cs.length cs

/-- `.replace(/\s+/g, ' ')`: collapse whitespace runs to single spaces. -/
def collapseWsAux (prevWs : Bool) : List Char → List Char
  | [] => []
  | c :: cs =>
    if isWsChar c then
      if prevWs then collapseWsAux true cs else ' ' :: collapseWsAux true cs
    else c :: collapseWsAux false cs

/-- Whitespace collapse entry point. -/
def collapseWs (cs : List Char) : List Char := collapseWsAux false cs

/-- `formatFilter`: unwrap triple parens, strip `::` casts, collapse
whitespace, trim.  (The source's `.replace(/'/g, "'")` step replaces an
apostrophe by itself and is the identity.) -/
def formatFilter (f : String) : String :=
  String.mk (trimChars (collapseWs (stripCasts
    (replaceAllLit ")))".toList ")".toList
      (replaceAllLit "(((".toList "(".toList f.toList)))))

/-- `formatCondition`: same pipeline as `formatFilter`. -/
def formatCondition (f : String) : String :=
  String.mk (trimChars (collapseWs (stripCasts
    (replaceAllLit ")))".toList ")".toList
      (replaceAllLit "(((".toList "(".toList f.toList)))))

/-- Join with a separator (JavaScript `Array.join`). -/
def joinSep (sep : String) : List String → String
  | [] => ""
  | [x] => x
  | x :: xs => x ++ sep ++ joinSep sep xs

/-- `key.trim().split(/\s+/)`: split at maximal whitespace runs.  The
flag records whether the previous character was whitespace (inside a
separator run). -/
def wsTokensGo (prevWs : Bool) (curr : List Char) : List Char → List (List Char)
  | [] => [curr.reverse]
  | c :: cs =>
    if isWsChar c then
      if prevWs then wsTokensGo true curr cs
      else curr.reverse :: wsTokensGo true [] cs
    else wsTokensGo false (c :: curr) cs

/-- Token-split entry point. -/
def wsTokens (cs : List Char) : List (List Char) := wsTokensGo false [] cs

/-- `formatSortKeys`: render each key with its optional direction. -/
def formatSortKeys (ks : List String) : String :=
  joinSep ", " (ks.map (fun key =>
    let parts := wsTokens (trimChars key.toList)
    let column := String.mk (parts.headD [])
    match parts.drop 1 with
    | d :: _ =>
      if String.mk d = "DESC" then column ++ " (descending)"
      else if String.mk d = "ASC" then column ++ " (ascending)"
      else column
    | [] => column))

/-- `formatGroupKeys`. -/
def formatGroupKeys (ks : List String) : String := joinSep ", " ks

/-- Case-insensitive ASCII equality of two characters. -/
def ciEq (a b : Char) : Bool := a.toLower = b.toLower

/-- Case-insensitive literal prefix test (for the `/i` regex flags). -/
def ciPfx (w : String) (cs : List Char) : Bool :=
  decide (List.Forall₂ (fun a b => ciEq a b) w.toList (cs.take w.length))

/-- Global matches of `/(\w+\.\w+)/g`: dotted column references. -/
def gmDottedGo : Nat → List Char → List String
  | 0, _ => []
  | _ + 1, [] => []
  | n + 1, c :: cs =>
    let w1 := (c :: cs).takeWhile isWordChar
    if w1.isEmpty then gmDottedGo n cs
    else
      match (c :: cs).drop w1.length with
      | '.' :: r2 =>
        let w2 := r2.takeWhile isWordChar
        if w2.isEmpty then gmDottedGo n cs
        else
          String.mk (w1 ++ '.' :: w2) ::
            gmDottedGo n (r2.drop w2.length)
      | _ => gmDottedGo n cs

/-- Lookahead-based global matches of `/(\w+)(?=...)/g`: a maximal word
run whose lookahead succeeds; scanning resumes after the word (the
lookahead is not consumed). -/
def gmLookaheadGo (ahead : List Char → Bool) : Nat → List Char → List String
  | 0, _ => []
  | _ + 1, [] => []
  | n + 1, c :: cs =>
    let w := (c :: cs).takeWhile isWordChar
    if w.isEmpty then gmLookaheadGo ahead n cs
    else
      let rest := (c :: cs).drop w.length
      if ahead rest then String.mk w :: gmLookaheadGo ahead n rest
      else gmLookaheadGo ahead n cs

/-- Lookahead of `/(?=\s*[<>=!@~])/`. -/
def aheadOp (cs : List Char) : Bool :=
  match (cs.dropWhile isWsChar).head? with
  | some c => c = '<' || c = '>' || c = '=' || c = '!' || c = '@' || c = '~'
  | none => false

/-- Lookahead of `/(?=\s+IS\s)/i`. -/
def aheadIs (cs : List Char) : Bool :=
  let t := cs.dropWhile isWsChar
  t.length < cs.length && ciPfx "IS" t &&
    ((t.drop 2).head?.map isWsChar).getD false

/-- Lookahead of `/(?=\s+ANY\s)/i`. -/
def aheadAny (cs : List Char) : Bool :=
  let t := cs.dropWhile isWsChar
  t.length < cs.length && ciPfx "ANY" t &&
    ((t.drop 3).head?.map isWsChar).getD false

/-- The `/^(null|true|false|\d+)$/i` exclusion of `extractFilterColumns`. -/
def isExcludedColumn (s : String) : Bool :=
  let cs := s.toList
  (ciPfx "null" cs && cs.length = 4) || (ciPfx "true" cs && cs.length = 4) ||
  (ciPfx "false" cs && cs.length = 5) ||
  (!cs.isEmpty && cs.all Char.isDigit)

/-- `extractFilterColumns`: collect the four pattern families in order
into an insertion-ordered set, excluding literals, and join. -/
def extractFilterColumns (filter : String) : String :=
  let cs := filter.toList
  let n := cs.length
  let raw :=
    gmDottedGo n cs ++ gmLookaheadGo aheadOp n cs ++
    gmLookaheadGo aheadIs n cs ++ gmLookaheadGo aheadAny n cs
  joinSep ", " (dedupFirst (raw.filter (fun m => !isExcludedColumn m)))

/-! ### Per-operation explanation rules (`NODE_DESCRIPTIONS`) -/

/-- `NodeExplanation` of `explanations.ts`; the translator replaces the
optional arrays of the source with `[]`, so they are kept total here. -/
structure NodeExplanation where
  description : String
  performanceNotes : List String
  warnings : List String
  recommendations : List String
deriving Repr, DecidableEq

/-- The `'Seq Scan'` rule. -/
def ruleSeqScan (d : NodeData) : NodeExplanation :=
  { description :=
      "perform a sequential scan on the " ++ optStr d.tableName ++ " table" ++
        (if truthyS d.filter then
          ", filtering for rows where " ++ formatFilter (strOf d.filter) else "")
    performanceNotes :=
      ["This will scan approximately " ++ formatNumber d.rows ++ " rows"] ++
        (if truthyN d.actualRows then
          ["Actually scanned " ++ formatNumber d.actualRows ++ " rows"] else [])
    warnings :=
      if truthyN d.rows ∧ d.rows.getD 0 > 10000 then
        ["Large table scan - consider adding an index"] else []
    recommendations :=
      if truthyN d.rows ∧ d.rows.getD 0 > 10000 ∧ truthyS d.filter then
        ["Consider adding an index on the filtered columns: " ++
          extractFilterColumns (strOf d.filter)]
      else [] }

/-- The `'Parallel Seq Scan'` rule. -/
def ruleParallelSeqScan (d : NodeData) : NodeExplanation :=
  let w := workersOr1 d.workers
  { description :=
      "perform a parallel sequential scan on the " ++ optStr d.tableName ++
        " table using " ++ toString w ++ " worker process" ++
        (if w > 1 then "es" else "") ++
        (if truthyS d.filter then
          ", filtering for rows where " ++ formatFilter (strOf d.filter) else "")
    performanceNotes :=
      ["This will scan approximately " ++ formatNumber d.rows ++ " rows across " ++
        toString w ++ " worker" ++ (if w > 1 then "s" else "")] ++
        (if truthyN d.actualRows then
          ["Actually scanned " ++ formatNumber d.actualRows ++ " rows"] else [])
    warnings :=
      if truthyN d.rows ∧ d.rows.getD 0 > 50000 then
        ["Very large parallel table scan"] else []
    recommendations :=
      if truthyS d.filter then
        ["Consider adding an index on the filtered columns: " ++
          extractFilterColumns (strOf d.filter)]
      else [] }

/-- The `'Index Scan'` rule. -/
def ruleIndexScan (d : NodeData) : NodeExplanation :=
  { description :=
      "look up rows using the " ++ optStr d.indexName ++ " index" ++
        (if truthyS d.indexCond then
          " where " ++ formatCondition (strOf d.indexCond) else "") ++
        (if truthyS d.filter then
          ", then filter for rows where " ++ formatFilter (strOf d.filter) else "")
    performanceNotes :=
      ["Expected to find " ++ formatNumber d.rows ++ " row" ++ sfx d.rows] ++
        (if truthyN d.actualRows then
          ["Actually found " ++ formatNumber d.actualRows ++ " row" ++ sfx d.actualRows]
        else [])
    warnings :=
      if truthyS d.filter then
        ["Additional filtering after index lookup may indicate a suboptimal index"]
      else []
    recommendations :=
      if truthyS d.filter then
        ["Consider a composite index including: " ++ extractFilterColumns (strOf d.filter)]
      else [] }

/-- The `'Index Only Scan'` rule. -/
def ruleIndexOnlyScan (d : NodeData) : NodeExplanation :=
  { description :=
      "perform an index-only scan using the " ++ optStr d.indexName ++ " index" ++
        (if truthyS d.indexCond then
          " where " ++ formatCondition (strOf d.indexCond) else "")
    performanceNotes :=
      ["This efficient scan will read only from the index, not the table",
       "Expected to find " ++ formatNumber d.rows ++ " row" ++ sfx d.rows]
    warnings := []
    recommendations := [] }

/-- The `'Bitmap Heap Scan'` rule. -/
def ruleBitmapHeapScan (d : NodeData) : NodeExplanation :=
  { description :=
      "scan the " ++ optStr d.tableName ++
        " table using a bitmap to efficiently locate matching rows" ++
        (if truthyS d.filter then
          ", filtering for rows where " ++ formatFilter (strOf d.filter) else "")
    performanceNotes :=
      ["Expected to find " ++ formatNumber d.rows ++ " row" ++ sfx d.rows,
       "Uses a bitmap to avoid random I/O"]
    warnings := []
    recommendations := [] }

/-- The `'Bitmap Index Scan'` rule. -/
def ruleBitmapIndexScan (d : NodeData) : NodeExplanation :=
  { description :=
      "build a bitmap using the " ++ optStr d.indexName ++ " index" ++
        (if truthyS d.indexCond then
          " for rows where " ++ formatCondition (strOf d.indexCond) else "")
    performanceNotes :=
      ["Creates a bitmap of matching row locations for efficient heap access"]
    warnings := []
    recommendations := [] }

/-- The `'Nested Loop'` rule. -/
def ruleNestedLoop (d : NodeData) : NodeExplanation :=
  { description := "join the results using a nested loop"
    performanceNotes :=
      ["Expected to produce " ++ formatNumber d.rows ++ " row" ++ sfx d.rows] ++
        (if truthyN d.actualRows then
          ["Actually produced " ++ formatNumber d.actualRows ++ " row" ++ sfx d.actualRows]
        else [])
    warnings :=
      if truthyN d.rows ∧ d.rows.getD 0 > 1000 then
        ["Large nested loop join - consider if a hash join would be more efficient"]
      else []
    recommendations := [] }

/-- The `'Hash Join'` rule. -/
def ruleHashJoin (d : NodeData) : NodeExplanation :=
  { description :=
      "join the results using a hash join" ++
        (if truthyS d.hashCond then " on " ++ formatCondition (strOf d.hashCond) else "")
    performanceNotes :=
      ["Expected to produce " ++ formatNumber d.rows ++ " row" ++ sfx d.rows,
       "Builds a hash table from the smaller input for efficient lookups"]
    warnings := []
    recommendations := [] }

/-- The `'Merge Join'` rule. -/
def ruleMergeJoin (d : NodeData) : NodeExplanation :=
  { description :=
      "join the results using a merge join" ++
        (if truthyS d.joinCond then " on " ++ formatCondition (strOf d.joinCond) else "")
    performanceNotes :=
      ["Expected to produce " ++ formatNumber d.rows ++ " row" ++ sfx d.rows,
       "Both inputs must be sorted on the join key"]
    warnings := []
    recommendations := [] }

/-- The `'Sort'` rule (note: a present `sortKey` array is truthy even when
empty). -/
def ruleSort (d : NodeData) : NodeExplanation :=
  { description :=
      "sort the results" ++
        (match d.sortKey with
         | some ks => " by " ++ formatSortKeys ks
         | none => "")
    performanceNotes :=
      ["Sorting " ++ formatNumber d.rows ++ " row" ++ sfx d.rows] ++
        (if truthyS d.memoryUsage then ["Memory usage: " ++ strOf d.memoryUsage] else []) ++
        (if truthyS d.diskUsage then ["Disk usage: " ++ strOf d.diskUsage] else [])
    warnings :=
      if truthyS d.diskUsage then
        ["Sort spilled to disk - consider increasing work_mem"] else []
    recommendations :=
      if truthyS d.diskUsage then
        ["Increase work_mem to avoid disk-based sorting"] else [] }

/-- The `'Limit'` rule. -/
def ruleLimit (d : NodeData) : NodeExplanation :=
  { description := "limit the results to " ++ formatNumber d.rows ++ " row" ++ sfx d.rows
    performanceNotes := []
    warnings := []
    recommendations := [] }

/-- The `'Gather'` rule. -/
def ruleGather (d : NodeData) : NodeExplanation :=
  let w := workersOr1 d.workers
  { description := "gather results from parallel worker processes"
    performanceNotes :=
      ["Collecting results from " ++ toString w ++ " worker process" ++
        (if w > 1 then "es" else "")]
    warnings := []
    recommendations := [] }

/-- The `'Gather Merge'` rule. -/
def ruleGatherMerge (d : NodeData) : NodeExplanation :=
  let w := workersOr1 d.workers
  { description := "gather and merge sorted results from parallel worker processes"
    performanceNotes :=
      ["Merging sorted results from " ++ toString w ++ " worker process" ++
        (if w > 1 then "es" else ""),
       "Maintains sort order while combining parallel results"]
    warnings := []
    recommendations := [] }

/-- The `'Aggregate'` rule. -/
def ruleAggregate (d : NodeData) : NodeExplanation :=
  { description :=
      "compute aggregate functions" ++
        (match d.groupKey with
         | some ks => " grouped by " ++ formatGroupKeys ks
         | none => "")
    performanceNotes :=
      ["Processing " ++ formatNumber d.rows ++ " row" ++ sfx d.rows]
    warnings := []
    recommendations := [] }

/-- The `'HashAggregate'` rule. -/
def ruleHashAggregate (d : NodeData) : NodeExplanation :=
  { description :=
      "compute aggregate functions using hash grouping" ++
        (match d.groupKey with
         | some ks => " grouped by " ++ formatGroupKeys ks
         | none => "")
    performanceNotes :=
      ["Processing " ++ formatNumber d.rows ++ " row" ++ sfx d.rows,
       "Uses hash table for efficient grouping"]
    warnings := []
    recommendations := [] }

/-- The `'GroupAggregate'` rule. -/
def ruleGroupAggregate (d : NodeData) : NodeExplanation :=
  { description :=
      "compute aggregate functions on pre-sorted groups" ++
        (match d.groupKey with
         | some ks => " grouped by " ++ formatGroupKeys ks
         | none => "")
    performanceNotes :=
      ["Processing " ++ formatNumber d.rows ++ " row" ++ sfx d.rows,
       "Input must be sorted by group keys"]
    warnings := []
    recommendations := [] }

/-- The `'Unique'` rule. -/
def ruleUnique (d : NodeData) : NodeExplanation :=
  { description := "remove duplicate rows"
    performanceNotes :=
      ["Processing " ++ formatNumber d.rows ++ " row" ++ sfx d.rows]
    warnings := []
    recommendations := [] }

/-- The `'Subquery Scan'` rule. -/
def ruleSubqueryScan (d : NodeData) : NodeExplanation :=
  { description :=
      "scan the results of a subquery" ++
        (if truthyS d.aliasName then " (aliased as " ++ strOf d.aliasName ++ ")" else "")
    performanceNotes :=
      ["Expected to produce " ++ formatNumber d.rows ++ " row" ++ sfx d.rows]
    warnings := []
    recommendations := [] }

/-- The string-keyed `NODE_DESCRIPTIONS` record as a lookup. -/
def lookupExplainer (key : String) : Option (NodeData → NodeExplanation) :=
  if key = "Seq Scan" then some ruleSeqScan
  else if key = "Parallel Seq Scan" then some ruleParallelSeqScan
  else if key = "Index Scan" then some ruleIndexScan
  else if key = "Index Only Scan" then some ruleIndexOnlyScan
  else if key = "Bitmap Heap Scan" then some ruleBitmapHeapScan
  else if key = "Bitmap Index Scan" then some ruleBitmapIndexScan
  else if key = "Nested Loop" then some ruleNestedLoop
  else if key = "Hash Join" then some ruleHashJoin
  else if key = "Merge Join" then some ruleMergeJoin
  else if key = "Sort" then some ruleSort
  else if key = "Limit" then some ruleLimit
  else if key = "Gather" then some ruleGather
  else if key = "Gather Merge" then some ruleGatherMerge
  else if key = "Aggregate" then some ruleAggregate
  else if key = "HashAggregate" then some ruleHashAggregate
  else if key = "GroupAggregate" then some ruleGroupAggregate
  else if key = "Unique" then some ruleUnique
  else if key = "Subquery Scan" then some ruleSubqueryScan
  else none

/-- `getNodeExplanation`: look up by raw `nodeType`, then by the resolved
`operation` tag (with `''` for an absent tag), falling back to the generic
description. -/
def getNodeExplanation (d : NodeData) : NodeExplanation :=
  match lookupExplainer d.nodeType with
  | some f => f d
  | none =>
    match lookupExplainer (d.operation.getD "") with
    | some f => f d
    | none =>
      { description :=
          "perform a " ++ (if d.nodeType ≠ "" then d.nodeType else optStr d.operation) ++
            " operation" ++
            (if truthyS d.tableName then " on " ++ strOf d.tableName else "")
        performanceNotes :=
          if truthyN d.rows then
            ["Expected to process " ++ formatNumber d.rows ++ " row" ++ sfx d.rows]
          else []
        warnings := []
        recommendations := [] }

/-- `detectPerformanceIssues`: the independent cross-cutting diagnostic
pass.  The `node.actualRows && node.rows && ...` guards make a zero (or
absent) `actualRows` or `rows` skip the row-divergence check. -/
def detectPerformanceIssues (d : NodeData) : List String :=
  (if d.nodeType = "Seq Scan" ∧ truthyN d.rows ∧ d.rows.getD 0 > 10000 then
    ["Large sequential scan on " ++ optStr d.tableName ++
      " (" ++ formatNumber d.rows ++ " rows)"]
  else []) ++
  (if d.nodeType = "Parallel Seq Scan" ∧ truthyN d.rows ∧ d.rows.getD 0 > 50000 then
    ["Very large parallel sequential scan on " ++ optStr d.tableName ++
      " (" ++ formatNumber d.rows ++ " rows)"]
  else []) ++
  (if d.nodeType = "Nested Loop" ∧ truthyN d.rows ∧ d.rows.getD 0 > 1000 then
    ["Large nested loop join producing " ++ formatNumber d.rows ++ " rows"]
  else []) ++
  (if d.nodeType = "Sort" ∧ truthyS d.diskUsage then
    ["Sort operation spilled to disk (" ++ strOf d.diskUsage ++ ")"]
  else []) ++
  (match d.cost with
   | some c =>
     if c.total.gt 10000 then
       ["High cost operation: " ++ d.nodeType ++ " (cost: " ++ toFixed2 c.total ++ ")"]
     else []
   | none => []) ++
  (if truthyN d.actualRows ∧ truthyN d.rows ∧
      ((((JNum.ofNat (d.actualRows.getD 0)).sub (JNum.ofNat (d.rows.getD 0))).abs.div
        (JNum.ofNat (d.rows.getD 0))).gt ((1 : JNum).div 2)) then
    ["Row estimate significantly off: estimated " ++ formatNumber d.rows ++
      ", actual " ++ formatNumber d.actualRows]
  else [])

/-- `generateRecommendations`: the standalone recommendation pass. -/
def generateRecommendations (d : NodeData) : List String :=
  (if d.nodeType = "Seq Scan" ∧ truthyS d.filter ∧ truthyN d.rows ∧ d.rows.getD 0 > 1000 then
    (let columns := extractFilterColumns (strOf d.filter)
     if columns ≠ "" then
       ["Add an index on " ++ optStr d.tableName ++ "(" ++ columns ++
         ") to avoid sequential scan"]
     else [])
  else []) ++
  (if d.nodeType = "Index Scan" ∧ truthyS d.filter then
    (let columns := extractFilterColumns (strOf d.filter)
     if columns ≠ "" then
       ["Consider a composite index including filtered columns: " ++ columns]
     else [])
  else []) ++
  (if d.nodeType = "Sort" ∧ truthyS d.diskUsage then
    ["Increase work_mem to avoid disk-based sorting"]
  else []) ++
  (if d.nodeType = "Nested Loop" ∧ truthyN d.rows ∧ d.rows.getD 0 > 1000 then
    ["Consider if statistics are up to date - large nested loops may indicate outdated statistics"]
  else []) ++
  (if truthyN d.actualRows ∧ truthyN d.rows ∧
      ((((JNum.ofNat (d.actualRows.getD 0)).sub (JNum.ofNat (d.rows.getD 0))).abs.div
        (JNum.ofNat (d.rows.getD 0))).gt ((1 : JNum).div 2)) then
    ["Update table statistics with ANALYZE to improve query planning"]
  else [])

/-! ### Translator (`translator.ts`) -/

/-- `ExecutionStep` of `explanations.ts`. -/
structure ExecutionStep where
  stepNumber : Nat
  description : String
  nodeType : String
  tableName : Option String
  indexName : Option String
  estimatedRows : Option Nat
  actualRows : Option Nat
  cost : Option JNum
  performanceNotes : List String
  warnings : List String
deriving Repr, DecidableEq

/-- `currentNode.nodeType || currentNode.operation || 'Unknown'`. -/
def stepNodeType (d : NodeData) : String :=
  if d.nodeType ≠ "" then d.nodeType
  else
    match d.operation with
    | some s => if s ≠ "" then s else "Unknown"
    | none => "Unknown"

/-- The step record pushed for one node, given its assigned number. -/
def mkStep (d : NodeData) (num : Nat) : ExecutionStep :=
  let ex := getNodeExplanation d
  { stepNumber := num
    description := ex.description
    nodeType := stepNodeType d
    tableName := d.tableName
    indexName := d.indexName
    estimatedRows := d.rows
    actualRows := d.actualRows
    cost := d.cost.map (·.total)
    performanceNotes := ex.performanceNotes
    warnings := ex.warnings ++ detectPerformanceIssues d }

mutual

/-- `generateExecutionSteps`'s recursive `processNode`: children first
(bottom-up), then the node itself, threading the `stepCounter`. -/
def genSteps : ParsedNode → Nat → List ExecutionStep × Nat
  | .mk d cs, c =>
    let pr := genStepsList cs c
    (pr.1 ++ [mkStep d pr.2], pr.2 + 1)

/-- The `children.forEach` of `processNode`. -/
def genStepsList : List ParsedNode → Nat → List ExecutionStep × Nat
  | [], c => ([], c)
  | n :: ns, c =>
    let p1 := genSteps n c
    let p2 := genStepsList ns p1.2
    (p1.1 ++ p2.1, p2.2)

end

/-- One node's contribution to `collectAllWarnings`. -/
def nodeWarnings (d : NodeData) : List String :=
  (getNodeExplanation d).warnings ++ detectPerformanceIssues d

/-- One node's contribution to `collectAllRecommendations`. -/
def nodeRecommendations (d : NodeData) : List String :=
  (getNodeExplanation d).recommendations ++ generateRecommendations d

mutual

/-- `collectAllWarnings`'s recursive closure: push this node's warnings,
then visit the children (node before children: pre-order). -/
def collWarn : ParsedNode → List String → List String
  | .mk d cs, acc => collWarnList cs (acc ++ nodeWarnings d)

/-- The `children.forEach` of the warning collector. -/
def collWarnList : List ParsedNode → List String → List String
  | [], acc => acc
  | n :: ns, acc => collWarnList ns (collWarn n acc)

end

/-- `collectAllWarnings`: pre-order gathering, then set de-duplication and
`filter(Boolean)`. -/
def collectAllWarnings (n : ParsedNode) : List String :=
  (dedupFirst (collWarn n [])).filter (fun s => !s.isEmpty)

mutual

/-- `collectAllRecommendations`'s recursive closure (pre-order). -/
def collRec : ParsedNode → List String → List String
  | .mk d cs, acc => collRecList cs (acc ++ nodeRecommendations d)

/-- The `children.forEach` of the recommendation collector. -/
def collRecList : List ParsedNode → List String → List String
  | [], acc => acc
  | n :: ns, acc => collRecList ns (collRec n acc)

end

/-- `collectAllRecommendations`. -/
def collectAllRecommendations (n : ParsedNode) : List String :=
  (dedupFirst (collRec n [])).filter (fun s => !s.isEmpty)

/-- `${...}` interpolation of an optional number. -/
def optNatStr (o : Option Nat) : String :=
  match o with
  | some n => toString n
  | none => "undefined"

/-- Truthiness of an optional rational. -/
def truthyQ (o : Option JNum) : Bool :=
  match o with
  | some q => q.truthy
  | none => false

/-- `generateDetailedSummary`. -/
def generateDetailedSummary (rootNode : ParsedNode) (steps : List ExecutionStep) : String :=
  if steps.isEmpty then "No execution steps found."
  else
    let scanSteps := steps.filter (fun s => hasSubstr "Scan".toList s.nodeType.toList)
    let joinSteps := steps.filter (fun s =>
      hasSubstr "Loop".toList s.nodeType.toList || hasSubstr "Join".toList s.nodeType.toList)
    let sortSteps := steps.filter (fun s => hasSubstr "Sort".toList s.nodeType.toList)
    let limitSteps := steps.filter (fun s => hasSubstr "Limit".toList s.nodeType.toList)
    let gatherSteps := steps.filter (fun s => hasSubstr "Gather".toList s.nodeType.toList)
    let s1 := "This query " ++
      (match scanSteps with
       | mainScan :: _ =>
         (if hasSubstr "Parallel".toList mainScan.nodeType.toList then
           "performs a parallel scan"
         else if hasSubstr "Index".toList mainScan.nodeType.toList then
           "uses index lookups"
         else "performs table scans") ++
         (let tables := dedupFirst
            ((scanSteps.filterMap (·.tableName)).filter (fun t => !t.isEmpty))
          if !tables.isEmpty then " on " ++ joinSep ", " tables else "")
       | [] => "")
    let s2 := s1 ++
      (if joinSteps.length > 0 then
        ", performs " ++ toString joinSteps.length ++ " join operation" ++
          (if joinSteps.length > 1 then "s" else "") ++
          (if (joinSteps.filter (fun s =>
              hasSubstr "Nested Loop".toList s.nodeType.toList)).length > 0 then
            " (using nested loops)"
          else "")
      else "")
    let s3 := s2 ++ (if sortSteps.length > 0 then ", sorts the results" else "")
    let s4 := s3 ++
      (match limitSteps with
       | l :: _ => ", and returns only " ++ optNatStr l.estimatedRows ++ " rows"
       | [] => "")
    let s5 := s4 ++ "."
    let s6 := s5 ++
      (if gatherSteps.length > 0 then
        " The query uses parallel execution to improve performance."
      else "")
    let totalCost := (rootNode.data.cost.map (·.total)).getD 0
    let s7 := s6 ++
      (if totalCost.gt 50000 then
        " This is an expensive query with a total cost of " ++ toFixed0 totalCost ++ "."
      else if totalCost.gt 10000 then
        " The query has a moderate cost of " ++ toFixed0 totalCost ++ "."
      else "")
    let totalRows := rootNode.data.rows.getD 0
    s7 ++
      (if totalRows > 0 then
        " PostgreSQL estimates it will process approximately " ++
          formatNumber (some totalRows) ++ " rows."
      else "")

/-- `capitalizeFirst`. -/
def capitalizeFirst (s : String) : String :=
  match s.toList with
  | [] => ""
  | c :: rest => String.mk (c.toUpper :: rest)

/-- `formatDetailedStep`. -/
def formatDetailedStep (step : ExecutionStep) : String :=
  let metrics :=
    (if step.estimatedRows.isSome then
      ["Est. rows: " ++ formatNumber step.estimatedRows] else []) ++
    (if step.actualRows.isSome then
      ["Actual: " ++ formatNumber step.actualRows] else []) ++
    (match step.cost with
     | some c => if c.gt 100 then ["Cost: " ++ toFixed0 c] else []
     | none => [])
  let parts :=
    [capitalizeFirst step.description] ++
    (if !metrics.isEmpty then ["[" ++ joinSep ", " metrics ++ "]"] else []) ++
    (if truthyQ step.cost ∧ (step.cost.getD 0).gt 10000 then
      ["⚠️ High cost operation"] else []) ++
    (if truthyN step.estimatedRows ∧ truthyN step.actualRows ∧
        ((JNum.ofNat (step.actualRows.getD 0)).gt ((JNum.ofNat (step.estimatedRows.getD 0)).mul 10) ∨
         (JNum.ofNat (step.actualRows.getD 0)).lt ((JNum.ofNat (step.estimatedRows.getD 0)).div 10)) then
      ["⚠️ Large estimation error"] else [])
  joinSep " " parts

/-- `translate` of `PostgreSQLTranslator`. -/
def translate (rootNode : ParsedNode) : TranslationResult :=
  let steps := (genSteps rootNode 1).1
  { summary := generateDetailedSummary rootNode steps
    steps := steps.map formatDetailedStep
    warnings := collectAllWarnings rootNode
    recommendations := collectAllRecommendations rootNode }

/-! ### Shape view of the tree builder

For reasoning about the parent/child attachments of `buildTree`, the same
loop is re-expressed on line indices: `parentIdx` records, for the node
created from line `i`, the index of the line whose node receives it by
`stack[stack.length - 1].node.children.push(node)` — the stack top after
the pop loop.  `seenRoot` is the source's `root !== null`.  Lines that are
not node headers leave the builder's stack and attachments untouched
whether the outer loop skips them (`parseNode` returns `null`) or the
property loop consumes them, so the shape view processes every line and
ignores the non-header ones. -/

/-- The stack (line index, indent) and attachment map of the builder. -/
structure ShapeState where
  stack : List (Nat × Nat)
  parentIdx : Nat → Option Nat
  seenRoot : Bool

/-- One line of the builder loop, at line index `i`. -/
def shapeStep (st : ShapeState) (i : Nat) (l : ParserLine) : ShapeState :=
  if isNodeLine l then
    if st.seenRoot then
      match st.stack.dropWhile (fun p => decide (l.indent ≤ p.2)) with
      | [] => { stack := [(i, l.indent)], parentIdx := st.parentIdx, seenRoot := true }
      | h :: t =>
        { stack := (i, l.indent) :: h :: t
          parentIdx := fun x => if x = i then some h.1 else st.parentIdx x
          seenRoot := true }
    else
      { stack := [(i, l.indent)], parentIdx := st.parentIdx, seenRoot := true }
  else st

/-- The builder loop over the remaining lines, starting at line index
`i`. -/
def shapeAux : Nat → List ParserLine → ShapeState → ShapeState
  | _, [], st => st
  | i, l :: ls, st => shapeAux (i + 1) ls (shapeStep st i l)

/-- The initial builder state. -/
def shapeInit : ShapeState := ⟨[], fun _ => none, false⟩

/-- The builder state after the whole line list. -/
def shapeRun (lines : List ParserLine) : ShapeState := shapeAux 0 lines shapeInit

/-- The parent attachment of the node built from line `i`: `some p` iff
that node was pushed onto `children` of the node built from line `p`. -/
def parentAt (lines : List ParserLine) (i : Nat) : Option Nat :=
  (shapeRun lines).parentIdx i

/-- `b`'s node is a strict descendant of `a`'s node in the children
relation created by the builder. -/
def IsDescendant (lines : List ParserLine) (b a : Nat) : Prop :=
  Relation.TransGen (fun u v => parentAt lines u = some v) b a

/-- All stack indices are below the next line index. -/
def StackBound (stack : List (Nat × Nat)) (n : Nat) : Prop :=
  ∀ p ∈ stack, p.1 < n

/-- From the top of the stack down to the open frame of line `a` (indent
`ia`), consecutive frames are parent-linked and all frames above `a` are
deeper than `ia`. -/
def Chain (pm : Nat → Option Nat) (a ia : Nat) : List (Nat × Nat) → Prop
  | [] => False
  | x :: rest =>
    (x.1 = a ∧ x.2 = ia) ∨
      (ia < x.2 ∧ (∃ y, rest.head? = some y ∧ pm x.1 = some y.1) ∧ Chain pm a ia rest)

/-- The invariant carried from line `a` to line `b`. -/
def ShapeInv (st : ShapeState) (a ia n : Nat) : Prop :=
  st.seenRoot = true ∧ StackBound st.stack n ∧ Chain st.parentIdx a ia st.stack

/-! ### Helper functions and lemmas for the claims -/

mutual

/-- Number of nodes in a subtree. -/
def sizeT : ParsedNode → Nat
  | .mk _ cs => sizeL cs + 1

/-- Number of nodes in a forest. -/
def sizeL : List ParsedNode → Nat
  | [] => 0
  | n :: ns => sizeT n + sizeL ns

end

mutual

/-- Pre-order enumeration (node before its children). -/
def preorderNodes : ParsedNode → List ParsedNode
  | .mk d cs => .mk d cs :: preorderNodesL cs

/-- Pre-order enumeration of a forest. -/
def preorderNodesL : List ParsedNode → List ParsedNode
  | [] => []
  | n :: ns => preorderNodes n ++ preorderNodesL ns

end

mutual

/-- Post-order enumeration (children before the node). -/
def postorderNodes : ParsedNode → List ParsedNode
  | .mk d cs => postorderNodesL cs ++ [.mk d cs]

/-- Post-order enumeration of a forest. -/
def postorderNodesL : List ParsedNode → List ParsedNode
  | [] => []
  | n :: ns => postorderNodes n ++ postorderNodesL ns

end

/-- Modelled from the spec: the warning list the specification describes —
"the de-duplicated union (insertion-order-preserving) of every node's
warnings gathered via the same post-order walk" as the step list.  Used
only to compare against the source's `collectAllWarnings`. -/
def specPostorderWarnings (n : ParsedNode) : List String :=
  (dedupFirst (((postorderNodes n).map (fun x => nodeWarnings x.data)).flatten)).filter
    (fun s => !s.isEmpty)

mutual

/-- A structural deep copy of a tree (used to express that translation
depends only on the tree's contents). -/
def copyNode : ParsedNode → ParsedNode
  | .mk d cs => .mk d (copyForest cs)

/-- Deep copy of a forest. -/
def copyForest : List ParsedNode → List ParsedNode
  | [] => []
  | n :: ns => copyNode n :: copyForest ns

end

/-- Replace the root's `rows` estimate (for stating threshold behaviour). -/
def setRows (t : ParsedNode) (n : Nat) : ParsedNode :=
  match t with
  | .mk d cs => .mk { d with rows := some n } cs

/-- The node data parsed from the spec sample header
`Seq Scan on orders  (cost=0.00..100.00 rows=5000 width=50)`. -/
def c7NodeData : NodeData :=
  { nodeType := "Seq Scan on orders"
    operation := some "Seq Scan"
    tableName := some "orders"
    cost := some ⟨⟨0, 100⟩, ⟨10000, 100⟩⟩
    rows := some 5000
    width := some 50
    raw := "Seq Scan on orders  (cost=0.00..100.00 rows=5000 width=50)" }


theorem chain_congr {pm pm' : Nat → Option Nat} {a ia : Nat} :
    ∀ {l : List (Nat × Nat)}, (∀ x ∈ l, pm' x.1 = pm x.1) →
      Chain pm a ia l → Chain pm' a ia l
  | [], _, h => h
  | x :: rest, hag, h => by
    rcases h with h | ⟨h1, ⟨y, hy, hpm⟩, h3⟩
    · exact Or.inl h
    · refine Or.inr ⟨h1, ⟨y, hy, ?_⟩, chain_congr (fun z hz => hag z (List.mem_cons_of_mem _ hz)) h3⟩
      rw [hag x (List.mem_cons_self _ _)]
      exact hpm

theorem chain_dropWhile {pm : Nat → Option Nat} {a ia : Nat} {p : Nat × Nat → Bool}
    (hp : p (a, ia) = false) :
    ∀ {l : List (Nat × Nat)}, Chain pm a ia l → Chain pm a ia (l.dropWhile p)
  | [], h => h.elim
  | x :: rest, h => by
    rcases h with ⟨h1, h2⟩ | ⟨h1, h2, h3⟩
    · have hx : x = (a, ia) := Prod.ext h1 h2
      rw [List.dropWhile_cons, hx, hp]
      exact Or.inl ⟨rfl, rfl⟩
    · rw [List.dropWhile_cons]
      by_cases hpx : p x = true
      · simp only [hpx, if_true]
        exact chain_dropWhile hp h3
      · simp only [hpx, if_false]
        exact Or.inr ⟨h1, h2, h3⟩

theorem chain_head_descends {pm : Nat → Option Nat} {a ia : Nat} :
    ∀ {l : List (Nat × Nat)}, Chain pm a ia l → ∀ {h : Nat × Nat}, l.head? = some h →
      h.1 = a ∨ Relation.TransGen (fun u v => pm u = some v) h.1 a
  | [], hch, _, _ => hch.elim
  | x :: rest, hch, h, hh => by
    rcases hch with ⟨h1, _⟩ | ⟨_, ⟨y, hy, hpm⟩, h3⟩
    · left
      cases Option.some_inj.mp hh
      exact h1
    · right
      cases Option.some_inj.mp hh
      rcases chain_head_descends h3 hy with heq | htg
      · exact Relation.TransGen.single (heq ▸ hpm)
      · exact Relation.TransGen.head hpm htg

theorem shapeStep_pm {st : ShapeState} {i x : Nat} {l : ParserLine} (hx : x ≠ i) :
    (shapeStep st i l).parentIdx x = st.parentIdx x := by
  unfold shapeStep
  by_cases hn : isNodeLine l
  · simp only [hn, if_true]
    by_cases hr : st.seenRoot
    · simp only [hr, if_true]
      cases hd : st.stack.dropWhile (fun p => decide (l.indent ≤ p.2)) with
      | nil => rfl
      | cons h t => simp [hx]
    · simp [hr]
  · simp [hn]

theorem stackBound_relax {stack : List (Nat × Nat)} {n m : Nat}
    (h : StackBound stack n) (hnm : n ≤ m) : StackBound stack m :=
  fun p hp => lt_of_lt_of_le (h p hp) hnm

theorem shapeInv_relax {st : ShapeState} {a ia n m : Nat}
    (h : ShapeInv st a ia n) (hnm : n ≤ m) : ShapeInv st a ia m :=
  ⟨h.1, stackBound_relax h.2.1 hnm, h.2.2⟩

theorem shapeStep_bound {st : ShapeState} {i : Nat} {l : ParserLine}
    (hb : StackBound st.stack i) : StackBound (shapeStep st i l).stack (i + 1) := by
  unfold shapeStep
  by_cases hn : isNodeLine l
  · simp only [hn, if_true]
    by_cases hr : st.seenRoot
    · simp only [hr, if_true]
      cases hd : st.stack.dropWhile (fun p => decide (l.indent ≤ p.2)) with
      | nil =>
        intro p hp
        simp only [List.mem_singleton] at hp
        subst hp
        exact Nat.lt_succ_self i
      | cons h t =>
        intro p hp
        rcases List.mem_cons.mp hp with rfl | hp'
        · exact Nat.lt_succ_self i
        · have hsub : p ∈ st.stack := by
            have := (List.dropWhile_sublist (l := st.stack)
              (p := fun p => decide (l.indent ≤ p.2))).subset
            exact this (hd ▸ hp')
          exact lt_of_lt_of_le (hb p hsub) (Nat.le_succ i)
    · rw [if_neg hr]
      intro p hp
      simp only [List.mem_singleton] at hp
      subst hp
      exact Nat.lt_succ_self i
  · simp only [hn, if_false]
    exact stackBound_relax hb (Nat.le_succ i)

theorem inv_start {st : ShapeState} {i : Nat} {l : ParserLine}
    (hb : StackBound st.stack i) (hn : isNodeLine l = true) :
    ShapeInv (shapeStep st i l) i l.indent (i + 1) := by
  refine ⟨?_, shapeStep_bound hb, ?_⟩
  · unfold shapeStep
    by_cases hr : st.seenRoot = true
    · rw [if_pos hn, if_pos hr]
      cases hd : st.stack.dropWhile (fun p => decide (l.indent ≤ p.2)) <;> rfl
    · rw [if_pos hn, if_neg hr]
  · unfold shapeStep
    by_cases hr : st.seenRoot = true
    · rw [if_pos hn, if_pos hr]
      cases hd : st.stack.dropWhile (fun p => decide (l.indent ≤ p.2)) with
      | nil => exact Or.inl ⟨rfl, rfl⟩
      | cons h t => exact Or.inl ⟨rfl, rfl⟩
    · rw [if_pos hn, if_neg hr]
      exact Or.inl ⟨rfl, rfl⟩

theorem inv_step {st : ShapeState} {a ia i : Nat} {l : ParserLine}
    (hinv : ShapeInv st a ia i) (hl : isNodeLine l = true → ia < l.indent) :
    ShapeInv (shapeStep st i l) a ia (i + 1) := by
  obtain ⟨hroot, hbound, hchain⟩ := hinv
  by_cases hn : isNodeLine l
  · have hi := hl hn
    have hpred : (fun p : Nat × Nat => decide (l.indent ≤ p.2)) (a, ia) = false := by
      simp only [decide_eq_false_iff_not]
      omega
    have hchain' := chain_dropWhile (p := fun p => decide (l.indent ≤ p.2)) hpred hchain
    refine ⟨?_, shapeStep_bound hbound, ?_⟩
    · unfold shapeStep
      simp only [hn, if_true, hroot, if_true]
      cases hd : st.stack.dropWhile (fun p => decide (l.indent ≤ p.2)) <;> rfl
    · unfold shapeStep
      simp only [hn, if_true, hroot, if_true]
      cases hd : st.stack.dropWhile (fun p => decide (l.indent ≤ p.2)) with
      | nil =>
        rw [hd] at hchain'
        exact hchain'.elim
      | cons h t =>
        rw [hd] at hchain'
        have hmem : ∀ x ∈ h :: t, x.1 < i := by
          intro x hx
          have hsub : x ∈ st.stack := by
            have := (List.dropWhile_sublist (l := st.stack)
              (p := fun p => decide (l.indent ≤ p.2))).subset
            exact this (hd ▸ hx)
          exact hbound x hsub
        refine Or.inr ⟨hi, ⟨h, rfl, by simp⟩, ?_⟩
        refine chain_congr (fun x hx => ?_) hchain'
        have : x.1 ≠ i := Nat.ne_of_lt (hmem x hx)
        simp [this]
  · have heq : shapeStep st i l = st := by
      unfold shapeStep
      simp [hn]
    rw [heq]
    exact ⟨hroot, stackBound_relax hbound (Nat.le_succ i), hchain⟩

theorem inv_seg {a ia : Nat} :
    ∀ (ls : List ParserLine) (i : Nat) (st : ShapeState),
      ShapeInv st a ia i →
      (∀ l ∈ ls, isNodeLine l = true → ia < l.indent) →
      ShapeInv (shapeAux i ls st) a ia (i + ls.length)
  | [], i, st, hinv, _ => by simpa using hinv
  | l :: ls, i, st, hinv, hls => by
    have h1 : ShapeInv (shapeStep st i l) a ia (i + 1) :=
      inv_step hinv (hls l (List.mem_cons_self _ _))
    have h2 := inv_seg ls (i + 1) (shapeStep st i l) h1
      (fun x hx => hls x (List.mem_cons_of_mem _ hx))
    have harith : i + 1 + ls.length = i + (l :: ls).length := by
      simp only [List.length_cons]
      omega
    rw [shapeAux, ← harith]
    exact h2

theorem pm_stable :
    ∀ (ls : List ParserLine) (i : Nat) (st : ShapeState) (x : Nat), x < i →
      (shapeAux i ls st).parentIdx x = st.parentIdx x
  | [], _, _, _, _ => rfl
  | l :: ls, i, st, x, hx => by
    rw [shapeAux, pm_stable ls (i + 1) _ x (Nat.lt_succ_of_lt hx)]
    exact shapeStep_pm (Nat.ne_of_lt hx)

theorem stack_bound_run :
    ∀ (ls : List ParserLine) (i : Nat) (st : ShapeState),
      StackBound st.stack i → StackBound (shapeAux i ls st).stack (i + ls.length)
  | [], i, st, hb => by simpa using hb
  | l :: ls, i, st, hb => by
    have h2 := stack_bound_run ls (i + 1) (shapeStep st i l) (shapeStep_bound hb)
    have harith : i + 1 + ls.length = i + (l :: ls).length := by
      simp only [List.length_cons]
      omega
    rw [shapeAux, ← harith]
    exact h2

theorem inv_finish {st : ShapeState} {a ia b : Nat} {lb : ParserLine}
    {pm₂ : Nat → Option Nat}
    (hinv : ShapeInv st a ia b) (hn : isNodeLine lb = true) (hi : ia < lb.indent)
    (hag : ∀ x, x < b + 1 → pm₂ x = (shapeStep st b lb).parentIdx x) :
    Relation.TransGen (fun u v => pm₂ u = some v) b a := by
  obtain ⟨hroot, hbound, hchain⟩ := hinv
  have hpred : (fun p : Nat × Nat => decide (lb.indent ≤ p.2)) (a, ia) = false := by
    simp only [decide_eq_false_iff_not]
    omega
  have hchain' := chain_dropWhile (p := fun p => decide (lb.indent ≤ p.2)) hpred hchain
  cases hd : st.stack.dropWhile (fun p => decide (lb.indent ≤ p.2)) with
  | nil =>
    rw [hd] at hchain'
    exact hchain'.elim
  | cons h t =>
    rw [hd] at hchain'
    have hmem : ∀ x ∈ h :: t, x.1 < b := by
      intro x hx
      have hsub : x ∈ st.stack := by
        have := (List.dropWhile_sublist (l := st.stack)
          (p := fun p => decide (lb.indent ≤ p.2))).subset
        exact this (hd ▸ hx)
      exact hbound x hsub
    have hstep : (shapeStep st b lb).parentIdx =
        fun x => if x = b then some h.1 else st.parentIdx x := by
      unfold shapeStep
      simp only [hn, if_true, hroot, if_true, hd]
    have hagree2 : ∀ x ∈ h :: t, pm₂ x.1 = st.parentIdx x.1 := by
      intro x hx
      have hxb : x.1 < b := hmem x hx
      rw [hag x.1 (Nat.lt_succ_of_lt hxb), hstep]
      simp [Nat.ne_of_lt hxb]
    have hchain₂ : Chain pm₂ a ia (h :: t) := chain_congr hagree2 hchain'
    have hb2 : pm₂ b = some h.1 := by
      rw [hag b (Nat.lt_succ_self b), hstep]
      simp
    rcases chain_head_descends hchain₂ (rfl : (h :: t).head? = some h) with heq | htg
    · exact Relation.TransGen.single (heq ▸ hb2)
    · exact Relation.TransGen.head hb2 htg

theorem list_decomp {α : Type} :
    ∀ (l : List α) (n : Nat) (x : α), l.get? n = some x →
      l = l.take n ++ x :: l.drop (n + 1)
  | [], n, x, h => by simp at h
  | c :: cs, 0, x, h => by
    simp only [List.get?] at h
    cases h
    simp
  | c :: cs, n + 1, x, h => by
    simp only [List.get?] at h
    have := list_decomp cs n x h
    simp only [List.take, List.drop, List.cons_append]
    exact congrArg (c :: ·) this

theorem shapeAux_append :
    ∀ (xs ys : List ParserLine) (i : Nat) (st : ShapeState),
      shapeAux i (xs ++ ys) st = shapeAux (i + xs.length) ys (shapeAux i xs st)
  | [], ys, i, st => by simp [shapeAux]
  | x :: xs, ys, i, st => by
    show shapeAux (i + 1) (xs ++ ys) (shapeStep st i x) =
      shapeAux (i + (x :: xs).length) ys (shapeAux (i + 1) xs (shapeStep st i x))
    rw [shapeAux_append xs ys (i + 1)]
    have harith : i + 1 + xs.length = i + (x :: xs).length := by
      simp only [List.length_cons]
      omega
    rw [harith]

/-- C4: for any two node-header lines `A` (at index `a`) and `B` (at
index `b`) with `A` before `B`, `B` strictly deeper than `A`, and no
node-header line of indentation `≤ A`'s between them, the node built from
`B` is a descendant (in the children relation created by `buildTree`) of
the node built from `A`. -/
theorem c4_header_indentation_descendant (lines : List ParserLine) (a b : Nat)
    (la lb : ParserLine)
    (ha : lines.get? a = some la) (hb : lines.get? b = some lb) (hab : a < b)
    (hna : isNodeLine la = true) (hnb : isNodeLine lb = true)
    (hind : la.indent < lb.indent)
    (hmid : ∀ l ∈ (lines.drop (a + 1)).take (b - (a + 1)),
      isNodeLine l = true → la.indent < l.indent) :
    IsDescendant lines b a := by
  have halen : a < lines.length := by
    by_contra h
    rw [List.get?_eq_none.mpr (Nat.le_of_not_lt h)] at ha
    exact Option.noConfusion ha
  set pre := lines.take a with hpre_def
  set rest₁ := lines.drop (a + 1) with hrest₁_def
  set m := b - (a + 1) with hm_def
  have hm_eq : a + 1 + m = b := by omega
  have hb' : rest₁.get? m = some lb := by
    rw [hrest₁_def, List.get?_drop, hm_eq]

    exact hb
  have hmlen : m < rest₁.length := by
    by_contra h
    rw [List.get?_eq_none.mpr (Nat.le_of_not_lt h)] at hb'
    exact Option.noConfusion hb'
  set mid := rest₁.take m with hmid_def
  set rest₂ := rest₁.drop (m + 1) with hrest₂_def
  have hd1 : lines = pre ++ la :: rest₁ := list_decomp lines a la ha
  have hd2 : rest₁ = mid ++ lb :: rest₂ := list_decomp rest₁ m lb hb'
  have hlen_pre : pre.length = a := by
    rw [hpre_def, List.length_take]
    omega
  have hlen_mid : mid.length = m := by
    rw [hmid_def, List.length_take]
    omega
  set st0 := shapeAux 0 pre shapeInit with hst0
  set st1 := shapeStep st0 a la with hst1
  set st2 := shapeAux (a + 1) mid st1 with hst2
  set st3 := shapeStep st2 b lb with hst3
  have hrun : shapeRun lines = shapeAux (b + 1) rest₂ st3 := by
    rw [shapeRun, hd1, hd2, shapeAux_append, hlen_pre, Nat.zero_add, ← hst0]
    show shapeAux (a + 1) ((mid ++ lb :: rest₂)) st1 = _
    rw [shapeAux_append, hlen_mid, hm_eq, ← hst2]
    rfl
  have hbound0 : StackBound st0.stack a := by
    have h0 : StackBound shapeInit.stack 0 := by
      intro p hp
      exact absurd hp (List.not_mem_nil p)
    have h1 := stack_bound_run pre 0 shapeInit h0
    rw [hlen_pre] at h1
    rw [hst0]
    exact stackBound_relax h1 (by omega)
  have hinv1 : ShapeInv st1 a la.indent (a + 1) := inv_start hbound0 hna
  have hinv2 : ShapeInv st2 a la.indent b := by
    have := inv_seg mid (a + 1) st1 hinv1 (by rw [hmid_def, hrest₁_def]; exact hmid)
    rw [hlen_mid, hm_eq] at this
    exact this
  refine inv_finish hinv2 hnb hind ?_
  intro x hx
  show parentAt lines x = st3.parentIdx x
  rw [parentAt, hrun]
  exact pm_stable rest₂ (b + 1) st3 x hx

/-- Witness for C4 at a concrete input: a `Limit` header at indent 0, an
intervening property line, and a `Sort` header at indent 4; the `Sort`
node is a descendant of the `Limit` node. -/
theorem c4_header_indentation_descendant_witness :
    (([⟨0, "Limit  (cost=1..2 rows=3 width=4)", "r0"⟩,
       ⟨2, "Sort Key: y", "r1"⟩,
       ⟨4, "Sort  (cost=1..2 rows=3 width=4)", "r2"⟩] : List ParserLine).get? 0 =
        some ⟨0, "Limit  (cost=1..2 rows=3 width=4)", "r0"⟩) ∧
    IsDescendant
      [⟨0, "Limit  (cost=1..2 rows=3 width=4)", "r0"⟩,
       ⟨2, "Sort Key: y", "r1"⟩,
       ⟨4, "Sort  (cost=1..2 rows=3 width=4)", "r2"⟩] 2 0 :=
  ⟨by decide,
    c4_header_indentation_descendant
      [⟨0, "Limit  (cost=1..2 rows=3 width=4)", "r0"⟩,
       ⟨2, "Sort Key: y", "r1"⟩,
       ⟨4, "Sort  (cost=1..2 rows=3 width=4)", "r2"⟩]
      0 2
      ⟨0, "Limit  (cost=1..2 rows=3 width=4)", "r0"⟩
      ⟨4, "Sort  (cost=1..2 rows=3 width=4)", "r2"⟩
      (by decide) (by decide) (by decide) (by decide) (by decide) (by decide)
      (by decide)⟩

/-- A `takeWhile` over an all-true list is the identity. -/
theorem takeWhile_all_eq {α : Type} {p : α → Bool} :
    ∀ {l : List α}, (∀ x ∈ l, p x = true) → l.takeWhile p = l
  | [], _ => rfl
  | x :: xs, h => by
    rw [List.takeWhile_cons, h x (List.mem_cons_self _ _)]
    simp only [if_true]
    exact congrArg (x :: ·) (takeWhile_all_eq (fun y hy => h y (List.mem_cons_of_mem _ hy)))

/-- A `dropWhile` over an all-true list is empty. -/
theorem dropWhile_all_nil {α : Type} {p : α → Bool} :
    ∀ {l : List α}, (∀ x ∈ l, p x = true) → l.dropWhile p = []
  | [], _ => rfl
  | x :: xs, h => by
    rw [List.dropWhile_cons, h x (List.mem_cons_self _ _)]
    simp only [if_true]
    exact dropWhile_all_nil (fun y hy => h y (List.mem_cons_of_mem _ hy))

/-- Pops on an everything-pops indent behave like the final pop-all. -/
theorem popAttach_all_ge {stack : List Frame} {cur : Nat} {r : Option ParsedNode}
    (hall : ∀ f ∈ stack, cur ≤ f.indent) :
    popAttach stack cur r = popAttach stack 0 r := by
  unfold popAttach
  rw [takeWhile_all_eq (fun f hf => decide_eq_true (hall f hf)),
    dropWhile_all_nil (fun f hf => decide_eq_true (hall f hf)),
    takeWhile_all_eq (fun f _ => decide_eq_true (Nat.zero_le _)),
    dropWhile_all_nil (fun f _ => decide_eq_true (Nat.zero_le _))]

/-- Once a second argument is `some`, `popAttach` keeps it. -/
theorem popAttach_some {stack : List Frame} {cur : Nat} {t : ParsedNode} :
    (popAttach stack cur (some t)).2 = some t := by
  unfold popAttach
  split
  · rfl
  · rfl
  · rename_i heq
    exact Option.noConfusion heq
  · rename_i heq
    cases heq
    rfl

/-- `buildStep` never clears a finished root. -/
theorem buildStep_some (l : ParserLine) (stack : List Frame) (t : ParsedNode)
    (c : Bool) : (buildStep l stack (some t) c).2.1 = some t := by
  unfold buildStep
  by_cases hn : isNodeLine l
  · rw [if_pos hn]
    have hfalse : (stack.isEmpty && (some t : Option ParsedNode).isNone) = false := by
      simp
    rw [hfalse, if_neg Bool.false_ne_true]
    exact popAttach_some
  · rw [if_neg hn]
    cases stack with
    | nil => rfl
    | cons f rest =>
      cases c with
      | true =>
        show (if f.indent < l.indent then
            ({ f with data := parseNodeProperty l f.data } :: rest,
              (some t : Option ParsedNode), true)
          else (f :: rest, some t, false)).2.1 = some t
        by_cases hi : f.indent < l.indent
        · rw [if_pos hi]
        · rw [if_neg hi]
      | false => rfl

/-- Once the root has finished, the remaining input cannot change the
result: the builder returns the finished root. -/
theorem buildTreeAux_rootDone :
    ∀ (ls : List ParserLine) (stack : List Frame) (t : ParsedNode) (c : Bool),
      buildTreeAux ls stack (some t) c = some t
  | [], stack, t, c => popAttach_some
  | l :: ls, stack, t, c => by
    rw [buildTreeAux]
    rw [buildStep_some l stack t c]
    exact buildTreeAux_rootDone ls _ t _

/-- A nonempty stack collapsed by the final pop-all yields a root. -/
theorem popAttach_zero_nonempty {stack : List Frame} (h : stack ≠ []) :
    ∃ t, popAttach stack 0 none = ([], some t) := by
  unfold popAttach
  rw [takeWhile_all_eq (fun f _ => decide_eq_true (Nat.zero_le _)),
    dropWhile_all_nil (fun f _ => decide_eq_true (Nat.zero_le _))]
  cases stack with
  | nil => exact absurd rfl h
  | cons f rest => exact ⟨squashAux (closeFrame f) rest, rfl⟩

/-- C10: when a later node-header line's indentation is `≤` the
indentation of every frame still open on the build stack (the root has
not yet finished), the node built from it is attached to no parent and the
builder's final result is exactly the tree already accumulated — the
orphan header and every later line contribute nothing to the returned
root, and `parse` reports no error. -/
theorem c10_shallow_header_orphaned (l : ParserLine) (ls : List ParserLine)
    (stack : List Frame) (c : Bool)
    (hn : isNodeLine l = true) (hne : stack ≠ [])
    (hall : ∀ f ∈ stack, l.indent ≤ f.indent) :
    buildTreeAux (l :: ls) stack none c = buildTreeAux [] stack none c ∧
    (∀ text : String, (parse text).error = none) := by
  constructor
  · obtain ⟨t, hpop⟩ := popAttach_zero_nonempty hne
    have hfalse : (stack.isEmpty && (none : Option ParsedNode).isNone) = false := by
      cases stack with
      | nil => exact absurd rfl hne
      | cons f rest => rfl
    have hstep : buildStep l stack none c =
        (⟨parseNodeData l, l.indent, []⟩ :: (popAttach stack l.indent none).1,
          (popAttach stack l.indent none).2, true) := by
      unfold buildStep
      rw [if_pos hn, hfalse, if_neg Bool.false_ne_true]
    have hR : buildTreeAux [] stack none c = some t := by
      show (popAttach stack 0 none).2 = some t
      rw [hpop]
    have hL : buildTreeAux (l :: ls) stack none c = some t := by
      rw [buildTreeAux, hstep]
      show buildTreeAux ls _ (popAttach stack l.indent none).2 true = some t
      rw [popAttach_all_ge hall, hpop]
      exact buildTreeAux_rootDone ls _ t true
    rw [hL, hR]
  · intro text
    rfl

/-- Witness for C10: a single open root frame at indent 0 and a second
header also at indent 0; the builder's result is the already-built root. -/
theorem c10_shallow_header_orphaned_witness :
    buildTreeAux
        [⟨0, "Seq Scan on t2  (cost=1..2 rows=3 width=4)", "r1"⟩]
        [⟨{ nodeType := "Sort" }, 0, []⟩] none false =
      buildTreeAux [] [⟨{ nodeType := "Sort" }, 0, []⟩] none false ∧
    (∀ text : String, (parse text).error = none) :=
  c10_shallow_header_orphaned
    ⟨0, "Seq Scan on t2  (cost=1..2 rows=3 width=4)", "r1"⟩ []
    [⟨{ nodeType := "Sort" }, 0, []⟩] false
    (by decide) (List.cons_ne_nil _ _)
    (fun f hf => Nat.zero_le _)

/-- With no header line ever seen, the builder's stack stays empty and the
result stays null. -/
theorem buildTreeAux_no_node :
    ∀ (ls : List ParserLine) (c : Bool), (∀ l ∈ ls, isNodeLine l = false) →
      buildTreeAux ls [] none c = none
  | [], _, _ => rfl
  | l :: ls, c, h => by
    have hn : isNodeLine l = false := h l (List.mem_cons_self _ _)
    have hstep : buildStep l [] none c = ([], none, false) := by
      unfold buildStep
      rw [hn, if_neg Bool.false_ne_true]
    rw [buildTreeAux, hstep]
    exact buildTreeAux_no_node ls false (fun x hx => h x (List.mem_cons_of_mem _ hx))

/-- C1 (amended): `parse` never sets `error` — the catch-based error path
is dead code — and an input with no recognizable node-header line yields a
null root (with no error, contrary to the original claim). -/
theorem c1_headerless_null_root_no_error (text : String) :
    (parse text).error = none ∧
    ((parseLines text.toList).all (fun l => !isNodeLine l) = true →
      (parse text).root = none) := by
  refine ⟨rfl, ?_⟩
  intro h
  show buildTree (parseLines text.toList) = none
  unfold buildTree
  by_cases he : (parseLines text.toList).isEmpty
  · rw [if_pos he]
  · rw [if_neg he]
    apply buildTreeAux_no_node
    intro l hl
    have := List.all_eq_true.mp h l hl
    simpa using this

/-- Witness for C1: a concrete prose input with a null root and no
error. -/
theorem c1_headerless_null_root_no_error_witness :
    (parseLines "this is only prose".toList).all (fun l => !isNodeLine l) = true ∧
    (parse "this is only prose").root = none ∧
    (parse "this is only prose").error = none :=
  ⟨by decide,
    (c1_headerless_null_root_no_error "this is only prose").2 (by decide),
    (c1_headerless_null_root_no_error "this is only prose").1⟩

/-- Counterexample to C1 as stated: a non-empty input in which no line is
classified as a node header parses to a null root with NO error at all —
`error` is `none`, not a non-empty string. -/
theorem c1_counterexample :
    ("this is just prose\nnothing here" : String) ≠ "" ∧
    (parseLines "this is just prose\nnothing here".toList).all
      (fun l => !isNodeLine l) = true ∧
    (parse "this is just prose\nnothing here").root.isNone = true ∧
    (parse "this is just prose\nnothing here").error = none := by
  refine ⟨?_, ?_, ?_, ?_⟩ <;> decide

/-- Counterexample to C2 as stated: the `Sort Key:` line directly follows
the (only) node-header line and precedes the (nonexistent) next header,
yet it is never assigned — the builder's `root === null` branch skips
property consumption for the first header. -/
theorem c2_counterexample :
    ((parse "Sort  (cost=5.00..9.00 rows=100 width=8)\n  Sort Key: name").root.map
      (fun r => (r.data.nodeType, r.data.sortKey, r.children.length))) =
      some ("Sort", none, 0) := by decide

/-- Consuming a property run: from a state whose top frame `f` has an
open run (`collecting = true`), the builder feeds exactly the contiguous
prefix of the remaining lines that are non-headers strictly deeper than
`f`'s indent to `parseNodeProperty`, folding them onto `f`'s node, and
resumes at the first line that breaks the run with the run closed. -/
theorem propRun_consume :
    ∀ (ls : List ParserLine) (f : Frame) (rest : List Frame) (r : Option ParsedNode),
      buildTreeAux ls (f :: rest) r true =
        buildTreeAux
          (ls.dropWhile fun x => !isNodeLine x && decide (f.indent < x.indent))
          ({ f with data := ((ls.takeWhile fun x =>
              !isNodeLine x && decide (f.indent < x.indent)).foldl
                (fun d x => parseNodeProperty x d) f.data) } :: rest) r false
  | [], f, rest, r => rfl
  | l :: ls, f, rest, r => by
    by_cases hb : (!isNodeLine l && decide (f.indent < l.indent)) = true
    · have hparts := hb
      simp only [Bool.and_eq_true, Bool.not_eq_true', decide_eq_true_eq] at hparts
      have hd : (l :: ls).dropWhile
            (fun x => !isNodeLine x && decide (f.indent < x.indent)) =
          ls.dropWhile (fun x => !isNodeLine x && decide (f.indent < x.indent)) := by
        simp [List.dropWhile_cons, hb]
      have ht : (l :: ls).takeWhile
            (fun x => !isNodeLine x && decide (f.indent < x.indent)) =
          l :: ls.takeWhile (fun x => !isNodeLine x && decide (f.indent < x.indent)) := by
        simp [List.takeWhile_cons, hb]
      have hstep : buildStep l (f :: rest) r true =
          ({ f with data := parseNodeProperty l f.data } :: rest, r, true) := by
        unfold buildStep
        rw [hparts.1]
        show (if f.indent < l.indent then _ else _) = _
        rw [if_pos hparts.2]
      rw [buildTreeAux, hstep, hd, ht]
      exact propRun_consume ls { f with data := parseNodeProperty l f.data } rest r
    · have hb' : (!isNodeLine l && decide (f.indent < l.indent)) = false := by
        cases hq : (!isNodeLine l && decide (f.indent < l.indent)) with
        | false => rfl
        | true => exact absurd hq hb
      have hd : (l :: ls).dropWhile
            (fun x => !isNodeLine x && decide (f.indent < x.indent)) = l :: ls := by
        simp [List.dropWhile_cons, hb']
      have ht : (l :: ls).takeWhile
            (fun x => !isNodeLine x && decide (f.indent < x.indent)) = ([] : List ParserLine) := by
        simp [List.takeWhile_cons, hb']
      have hstep : buildStep l (f :: rest) r true = buildStep l (f :: rest) r false := by
        by_cases hn : isNodeLine l = true
        · unfold buildStep
          rw [hn]
          rfl
        · have hn' : isNodeLine l = false := by
            cases hq : isNodeLine l with
            | false => rfl
            | true => exact absurd hq hn
          have hlt : ¬f.indent < l.indent := by
            intro h
            apply hb
            rw [hn']
            simp [h]
          unfold buildStep
          rw [hn']
          show (if f.indent < l.indent then _ else _) = _
          rw [if_neg hlt]
          rfl
      rw [hd, ht]
      show buildTreeAux ls (buildStep l (f :: rest) r true).1
          (buildStep l (f :: rest) r true).2.1 (buildStep l (f :: rest) r true).2.2 =
        buildTreeAux ls (buildStep l (f :: rest) r false).1
          (buildStep l (f :: rest) r false).2.1 (buildStep l (f :: rest) r false).2.2
      rw [hstep]

/-- C2 (amended): property-run assignment, for every header anywhere in
the input.  (1) A non-root header `H` — one processed while the stack is
nonempty or the root has already finished — opens a property run: the
builder feeds exactly the contiguous run of immediately following lines
that are strictly deeper than `H` and not headers to the property
extractor, folding them onto `H`'s freshly parsed node, and resumes at
the first line that breaks the run (a header, or any line indented
`≤ H.indent`) with the run closed.  (2) The first header — the root —
pushes with the run already closed, so it collects no properties.
(3) With the run closed, a non-header line is skipped entirely, whatever
its indentation: lines deeper again after the break are fed to no node
and leave the stack, the finished root and the tree shape untouched. -/
theorem c2_property_run_assignment :
    (∀ (H : ParserLine) (ls : List ParserLine) (stack : List Frame)
        (r : Option ParsedNode) (c : Bool),
      isNodeLine H = true → (stack.isEmpty && r.isNone) = false →
      buildTreeAux (H :: ls) stack r c =
        buildTreeAux
          (ls.dropWhile fun x => !isNodeLine x && decide (H.indent < x.indent))
          (⟨(ls.takeWhile fun x => !isNodeLine x && decide (H.indent < x.indent)).foldl
              (fun d x => parseNodeProperty x d) (parseNodeData H), H.indent, []⟩ ::
            (popAttach stack H.indent r).1)
          (popAttach stack H.indent r).2 false) ∧
    (∀ (H : ParserLine) (ls : List ParserLine) (c : Bool),
      isNodeLine H = true →
      buildTreeAux (H :: ls) [] none c =
        buildTreeAux ls [⟨parseNodeData H, H.indent, []⟩] none false) ∧
    (∀ (l : ParserLine) (ls : List ParserLine) (f : Frame) (rest : List Frame)
        (r : Option ParsedNode),
      isNodeLine l = false →
      buildTreeAux (l :: ls) (f :: rest) r false = buildTreeAux ls (f :: rest) r false) := by
  refine ⟨?_, ?_, ?_⟩
  · intro H ls stack r c hH hnr
    have hstep : buildStep H stack r c =
        (⟨parseNodeData H, H.indent, []⟩ :: (popAttach stack H.indent r).1,
          (popAttach stack H.indent r).2, true) := by
      unfold buildStep
      rw [hH, hnr]
      rfl
    rw [buildTreeAux, hstep]
    exact propRun_consume ls ⟨parseNodeData H, H.indent, []⟩
      (popAttach stack H.indent r).1 (popAttach stack H.indent r).2
  · intro H ls c hH
    have hstep : buildStep H [] none c =
        ([⟨parseNodeData H, H.indent, []⟩], none, false) := by
      unfold buildStep
      rw [hH]
      rfl
    rw [buildTreeAux, hstep]
  · intro l ls f rest r hl
    have hstep : buildStep l (f :: rest) r false = (f :: rest, r, false) := by
      unfold buildStep
      rw [hl]
      rfl
    rw [buildTreeAux, hstep]

/-- Witness for C2 (amended): a non-root `Seq Scan` header followed by a
deeper `Filter:` property line, a shallower plain line that breaks the
run, and a deeper-again `Sort Key:` line; part (1) folds exactly the
contiguous run onto the scan's node, and part (3) skips the deeper-again
line after the break. -/
theorem c2_property_run_assignment_witness :
    isNodeLine ⟨2, "Seq Scan on t  (cost=1..2 rows=3 width=4)", "r1"⟩ = true ∧
    (([⟨parseNodeData ⟨0, "Sort  (cost=1..2 rows=3 width=4)", "r0"⟩, 0, []⟩] : List Frame).isEmpty
        && (none : Option ParsedNode).isNone) = false ∧
    buildTreeAux
        [⟨2, "Seq Scan on t  (cost=1..2 rows=3 width=4)", "r1"⟩,
         ⟨4, "Filter: (x > 1)", "r2"⟩, ⟨1, "note", "r3"⟩, ⟨5, "Sort Key: z", "r4"⟩]
        [⟨parseNodeData ⟨0, "Sort  (cost=1..2 rows=3 width=4)", "r0"⟩, 0, []⟩] none false =
      buildTreeAux
        ([⟨4, "Filter: (x > 1)", "r2"⟩, ⟨1, "note", "r3"⟩,
          ⟨5, "Sort Key: z", "r4"⟩].dropWhile
          (fun x => !isNodeLine x &&
            decide ((⟨2, "Seq Scan on t  (cost=1..2 rows=3 width=4)", "r1"⟩ :
              ParserLine).indent < x.indent)))
        (⟨([⟨4, "Filter: (x > 1)", "r2"⟩, ⟨1, "note", "r3"⟩,
            ⟨5, "Sort Key: z", "r4"⟩].takeWhile
            (fun x => !isNodeLine x &&
              decide ((⟨2, "Seq Scan on t  (cost=1..2 rows=3 width=4)", "r1"⟩ :
                ParserLine).indent < x.indent))).foldl
            (fun d x => parseNodeProperty x d)
            (parseNodeData ⟨2, "Seq Scan on t  (cost=1..2 rows=3 width=4)", "r1"⟩),
          2, []⟩ ::
          (popAttach [⟨parseNodeData ⟨0, "Sort  (cost=1..2 rows=3 width=4)", "r0"⟩, 0, []⟩]
            2 none).1)
        (popAttach [⟨parseNodeData ⟨0, "Sort  (cost=1..2 rows=3 width=4)", "r0"⟩, 0, []⟩]
          2 none).2 false ∧
    isNodeLine ⟨5, "Sort Key: z", "r4"⟩ = false ∧
    buildTreeAux [⟨5, "Sort Key: z", "r4"⟩]
        [⟨parseNodeData ⟨2, "Seq Scan on t  (cost=1..2 rows=3 width=4)", "r1"⟩, 2, []⟩,
         ⟨parseNodeData ⟨0, "Sort  (cost=1..2 rows=3 width=4)", "r0"⟩, 0, []⟩] none false =
      buildTreeAux []
        [⟨parseNodeData ⟨2, "Seq Scan on t  (cost=1..2 rows=3 width=4)", "r1"⟩, 2, []⟩,
         ⟨parseNodeData ⟨0, "Sort  (cost=1..2 rows=3 width=4)", "r0"⟩, 0, []⟩] none false :=
  ⟨by decide, by decide,
    c2_property_run_assignment.1
      ⟨2, "Seq Scan on t  (cost=1..2 rows=3 width=4)", "r1"⟩
      [⟨4, "Filter: (x > 1)", "r2"⟩, ⟨1, "note", "r3"⟩, ⟨5, "Sort Key: z", "r4"⟩]
      [⟨parseNodeData ⟨0, "Sort  (cost=1..2 rows=3 width=4)", "r0"⟩, 0, []⟩] none false
      (by decide) (by decide),
    by decide,
    c2_property_run_assignment.2.2
      ⟨5, "Sort Key: z", "r4"⟩ []
      ⟨parseNodeData ⟨2, "Seq Scan on t  (cost=1..2 rows=3 width=4)", "r1"⟩, 2, []⟩
      [⟨parseNodeData ⟨0, "Sort  (cost=1..2 rows=3 width=4)", "r0"⟩, 0, []⟩] none
      (by decide)⟩

mutual

theorem collWarn_eq : ∀ (n : ParsedNode) (acc : List String),
    collWarn n acc = acc ++ ((preorderNodes n).map (fun x => nodeWarnings x.data)).flatten
  | .mk d cs, acc => by
    rw [collWarn, preorderNodes, collWarnList_eq cs (acc ++ nodeWarnings d)]
    simp [ParsedNode.data, List.append_assoc]

theorem collWarnList_eq : ∀ (l : List ParsedNode) (acc : List String),
    collWarnList l acc =
      acc ++ ((preorderNodesL l).map (fun x => nodeWarnings x.data)).flatten
  | [], acc => by simp [collWarnList, preorderNodesL]
  | n :: ns, acc => by
    rw [collWarnList, collWarn_eq n acc, collWarnList_eq ns _]
    simp [preorderNodesL, List.map_append, List.flatten_append, List.append_assoc]

end

mutual

theorem collRec_eq : ∀ (n : ParsedNode) (acc : List String),
    collRec n acc =
      acc ++ ((preorderNodes n).map (fun x => nodeRecommendations x.data)).flatten
  | .mk d cs, acc => by
    rw [collRec, preorderNodes, collRecList_eq cs (acc ++ nodeRecommendations d)]
    simp [ParsedNode.data, List.append_assoc]

theorem collRecList_eq : ∀ (l : List ParsedNode) (acc : List String),
    collRecList l acc =
      acc ++ ((preorderNodesL l).map (fun x => nodeRecommendations x.data)).flatten
  | [], acc => by simp [collRecList, preorderNodesL]
  | n :: ns, acc => by
    rw [collRecList, collRec_eq n acc, collRecList_eq ns _]
    simp [preorderNodesL, List.map_append, List.flatten_append, List.append_assoc]

end

/-- C3 (amended): the warning and recommendation lists of `translate` are
the insertion-order de-duplicated (and empty-string-filtered) unions of
the per-node warnings/recommendations gathered in PRE-order — each node's
contributions before its children's — not in the post-order of the step
list. -/
theorem c3_warnings_recommendations_preorder (t : ParsedNode) :
    (translate t).warnings =
      (dedupFirst (((preorderNodes t).map (fun x => nodeWarnings x.data)).flatten)).filter
        (fun s => !s.isEmpty) ∧
    (translate t).recommendations =
      (dedupFirst
        (((preorderNodes t).map (fun x => nodeRecommendations x.data)).flatten)).filter
        (fun s => !s.isEmpty) := by
  constructor
  · show collectAllWarnings t = _
    rw [collectAllWarnings, collWarn_eq]
    rfl
  · show collectAllRecommendations t = _
    rw [collectAllRecommendations, collRec_eq]
    rfl

/-- Counterexample to C3 as stated: on a disk-spilling `Sort` root over a
large `Seq Scan` child, `translate` lists the root's warnings first — the
gathering order is pre-order, which differs from the post-order union the
claim describes. -/
theorem c3_counterexample :
    (translate (.mk { nodeType := "Sort", rows := some 10, diskUsage := some "1MB" }
        [.mk { nodeType := "Seq Scan", tableName := some "t", rows := some 20000 } []])).warnings =
      ["Sort spilled to disk - consider increasing work_mem",
       "Sort operation spilled to disk (1MB)",
       "Large table scan - consider adding an index",
       "Large sequential scan on t (20.0K rows)"] ∧
    specPostorderWarnings
        (.mk { nodeType := "Sort", rows := some 10, diskUsage := some "1MB" }
          [.mk { nodeType := "Seq Scan", tableName := some "t", rows := some 20000 } []]) =
      ["Large table scan - consider adding an index",
       "Large sequential scan on t (20.0K rows)",
       "Sort spilled to disk - consider increasing work_mem",
       "Sort operation spilled to disk (1MB)"] ∧
    (translate (.mk { nodeType := "Sort", rows := some 10, diskUsage := some "1MB" }
        [.mk { nodeType := "Seq Scan", tableName := some "t", rows := some 20000 } []])).warnings ≠
      specPostorderWarnings
        (.mk { nodeType := "Sort", rows := some 10, diskUsage := some "1MB" }
          [.mk { nodeType := "Seq Scan", tableName := some "t", rows := some 20000 } []]) := by
  refine ⟨?_, ?_, ?_⟩ <;> decide

mutual

theorem genSteps_counter : ∀ (n : ParsedNode) (c : Nat),
    (genSteps n c).2 = c + sizeT n
  | .mk d cs, c => by
    rw [genSteps, sizeT]
    show (genStepsList cs c).2 + 1 = c + (sizeL cs + 1)
    rw [genStepsList_counter cs c]
    omega

theorem genStepsList_counter : ∀ (l : List ParsedNode) (c : Nat),
    (genStepsList l c).2 = c + sizeL l
  | [], c => by simp [genStepsList, sizeL]
  | n :: ns, c => by
    rw [genStepsList, sizeL]
    show (genStepsList ns (genSteps n c).2).2 = c + (sizeT n + sizeL ns)
    rw [genStepsList_counter ns _, genSteps_counter n c]
    omega

end

mutual

theorem genSteps_bound : ∀ (n : ParsedNode) (c : Nat) (s : ExecutionStep),
    s ∈ (genSteps n c).1 → s.stepNumber < c + sizeT n
  | .mk d cs, c, s => by
    intro hs
    rw [genSteps] at hs
    rw [sizeT]
    rcases List.mem_append.mp hs with h | h
    · have := genStepsList_bound cs c s h
      omega
    · rw [List.mem_singleton] at h
      subst h
      rw [genStepsList_counter]
      show c + sizeL cs < c + (sizeL cs + 1)
      omega

theorem genStepsList_bound : ∀ (l : List ParsedNode) (c : Nat) (s : ExecutionStep),
    s ∈ (genStepsList l c).1 → s.stepNumber < c + sizeL l
  | [], c, s => by
    intro hs
    simp [genStepsList] at hs
  | n :: ns, c, s => by
    intro hs
    rw [genStepsList] at hs
    rw [sizeL]
    rcases List.mem_append.mp hs with h | h
    · have := genSteps_bound n c s h
      omega
    · have := genStepsList_bound ns (genSteps n c).2 s h
      rw [genSteps_counter n c] at this
      omega

end

/-- C5: the step list is a strict post-order enumeration — each node's
entry comes last in its subtree's segment with step number
`c + sizeL children` (one more than all the entries of its children's
subtrees), so every node's step number exceeds every descendant's; and
the `Limit → Sort → Seq Scan` chain yields exactly the three steps
`[Seq Scan, Sort, Limit]` numbered 1, 2, 3. -/
theorem c5_postorder_step_numbers :
    (∀ (n : ParsedNode) (c : Nat),
      (genSteps n c).1 =
        (genStepsList n.children c).1 ++ [mkStep n.data (c + sizeL n.children)] ∧
      ∀ s ∈ (genStepsList n.children c).1, s.stepNumber < c + sizeL n.children) ∧
    ((genSteps (.mk { nodeType := "Limit" }
        [.mk { nodeType := "Sort" } [.mk { nodeType := "Seq Scan" } []]]) 1).1.map
      (fun s => (s.stepNumber, s.nodeType)) =
      [(1, "Seq Scan"), (2, "Sort"), (3, "Limit")]) := by
  constructor
  · intro n c
    cases n with
    | mk d cs =>
      constructor
      · rw [genSteps]
        show (genStepsList cs c).1 ++ [mkStep d (genStepsList cs c).2] = _
        rw [genStepsList_counter]
        rfl
      · intro s hs
        exact genStepsList_bound cs c s hs
  · decide

/-- Witness for C5: the subtree-shape equation instantiated at the
three-node chain with counter 1. -/
theorem c5_postorder_step_numbers_witness :
    (genSteps (.mk { nodeType := "Limit" }
        [.mk { nodeType := "Sort" } [.mk { nodeType := "Seq Scan" } []]]) 1).1 =
      (genStepsList (ParsedNode.mk { nodeType := "Limit" }
        [.mk { nodeType := "Sort" } [.mk { nodeType := "Seq Scan" } []]]).children 1).1 ++
      [mkStep (ParsedNode.mk { nodeType := "Limit" }
        [.mk { nodeType := "Sort" } [.mk { nodeType := "Seq Scan" } []]]).data
        (1 + sizeL (ParsedNode.mk { nodeType := "Limit" }
          [.mk { nodeType := "Sort" } [.mk { nodeType := "Seq Scan" } []]]).children)] :=
  (c5_postorder_step_numbers.1
    (.mk { nodeType := "Limit" }
      [.mk { nodeType := "Sort" } [.mk { nodeType := "Seq Scan" } []]]) 1).1

mutual

theorem copyNode_id : ∀ (n : ParsedNode), copyNode n = n
  | .mk d cs => by rw [copyNode, copyForest_id cs]

theorem copyForest_id : ∀ (l : List ParsedNode), copyForest l = l
  | [] => rfl
  | n :: ns => by rw [copyForest, copyNode_id n, copyForest_id ns]

end

/-- C9: translation is a pure function of the tree's structure — a deep
structural copy is the same tree, and translating it yields the same
`TranslationResult`; in the embedding `translate` is a function, so two
calls on the same tree are definitionally identical in all four fields,
and no mutation of the input is possible. -/
theorem c9_translate_pure (t : ParsedNode) :
    copyNode t = t ∧ translate (copyNode t) = translate t := by
  have h := copyNode_id t
  exact ⟨h, by rw [h]⟩

/-- The first character survives appending on the right. -/
theorem head_append {s t : String} {c : Char} (h : s.data.head? = some c) :
    (s ++ t).data.head? = some c := by
  have hd : (s ++ t).data = s.data ++ t.data := rfl
  rw [hd]
  cases hs : s.data with
  | nil => rw [hs] at h; exact Option.noConfusion h
  | cons a as =>
    rw [hs] at h
    simp only [List.head?] at h
    rw [List.cons_append]
    simpa using h

/-- Strings with different first characters differ. -/
theorem ne_of_head_ne {s t : String} {c d : Char} (hs : s.data.head? = some c)
    (ht : t.data.head? = some d) (hcd : c ≠ d) : s ≠ t := by
  intro he
  rw [he, ht] at hs
  exact hcd (Option.some_inj.mp hs).symm

/-- C6 (amended): for a node with `rows = e` and `actualRows = a` both
present and both NONZERO (JavaScript truthiness also excludes
`actualRows = 0`, which the original claim admits), the diagnostic pass
emits the row-estimate issue exactly when `|a − e| / e > 1/2`, i.e.
`2·|a − e| > e`. -/
theorem c6_row_divergence_condition (d : NodeData) (e a : Nat)
    (hrows : d.rows = some e) (hact : d.actualRows = some a)
    (he : e ≠ 0) (ha : a ≠ 0) :
    (("Row estimate significantly off: estimated " ++ formatNumber d.rows ++
        ", actual " ++ formatNumber d.actualRows) ∈ detectPerformanceIssues d ↔
      2 * ((a : Int) - (e : Int)).natAbs > e) := by
  have hmsgHead : ("Row estimate significantly off: estimated " ++ formatNumber d.rows ++
      ", actual " ++ formatNumber d.actualRows).data.head? = some 'R' :=
    head_append (head_append (head_append rfl))
  have hne1 : ("Row estimate significantly off: estimated " ++ formatNumber d.rows ++
      ", actual " ++ formatNumber d.actualRows) ≠
      "Large sequential scan on " ++ optStr d.tableName ++ " (" ++
        formatNumber d.rows ++ " rows)" :=
    ne_of_head_ne hmsgHead (head_append (head_append (head_append (head_append rfl))))
      (by decide)
  have hne2 : ("Row estimate significantly off: estimated " ++ formatNumber d.rows ++
      ", actual " ++ formatNumber d.actualRows) ≠
      "Very large parallel sequential scan on " ++ optStr d.tableName ++ " (" ++
        formatNumber d.rows ++ " rows)" :=
    ne_of_head_ne hmsgHead (head_append (head_append (head_append (head_append rfl))))
      (by decide)
  have hne3 : ("Row estimate significantly off: estimated " ++ formatNumber d.rows ++
      ", actual " ++ formatNumber d.actualRows) ≠
      "Large nested loop join producing " ++ formatNumber d.rows ++ " rows" :=
    ne_of_head_ne hmsgHead (head_append (head_append rfl)) (by decide)
  have hne4 : ("Row estimate significantly off: estimated " ++ formatNumber d.rows ++
      ", actual " ++ formatNumber d.actualRows) ≠
      "Sort operation spilled to disk (" ++ strOf d.diskUsage ++ ")" :=
    ne_of_head_ne hmsgHead (head_append (head_append rfl)) (by decide)
  have hne5 : ∀ c : CostPair,
      ("Row estimate significantly off: estimated " ++ formatNumber d.rows ++
        ", actual " ++ formatNumber d.actualRows) ≠
        "High cost operation: " ++ d.nodeType ++ " (cost: " ++ toFixed2 c.total ++ ")" :=
    fun c =>
      ne_of_head_ne hmsgHead (head_append (head_append (head_append rfl))) (by decide)
  have hT : truthyN d.actualRows = true ∧ truthyN d.rows = true := by
    rw [hrows, hact]
    constructor
    · show (a != 0) = true
      simpa using ha
    · show (e != 0) = true
      simpa using he
  have hcond : (((((JNum.ofNat (d.actualRows.getD 0)).sub
      (JNum.ofNat (d.rows.getD 0))).abs.div (JNum.ofNat (d.rows.getD 0))).gt
        ((1 : JNum).div 2)) = true) ↔ 2 * ((a : Int) - (e : Int)).natAbs > e := by
    rw [hrows, hact]
    show ((((JNum.ofNat a).sub (JNum.ofNat e)).abs.div (JNum.ofNat e)).gt
      ((1 : JNum).div 2)) = true ↔ _
    have hpos : (0 : Int) < (JNum.ofNat e).num := by
      show (0 : Int) < (e : Int)
      exact_mod_cast Nat.pos_of_ne_zero he
    rw [show ((1 : JNum).div 2) = (⟨1, 2⟩ : JNum) from rfl, JNum.gt, JNum.lt,
      JNum.div, if_pos hpos, decide_eq_true_iff]
    simp only [JNum.ofNat, JNum.sub, JNum.abs]
    rw [Int.abs_eq_natAbs]
    simp only [Nat.cast_one, Nat.cast_ofNat, mul_one, one_mul, Int.toNat_natCast]
    omega
  constructor
  · intro hmem
    unfold detectPerformanceIssues at hmem
    simp only [List.mem_append] at hmem
    rcases hmem with ((((h | h) | h) | h) | h) | h
    · split at h
      · exact absurd (List.mem_singleton.mp h) hne1
      · exact absurd h (List.not_mem_nil _)
    · split at h
      · exact absurd (List.mem_singleton.mp h) hne2
      · exact absurd h (List.not_mem_nil _)
    · split at h
      · exact absurd (List.mem_singleton.mp h) hne3
      · exact absurd h (List.not_mem_nil _)
    · split at h
      · exact absurd (List.mem_singleton.mp h) hne4
      · exact absurd h (List.not_mem_nil _)
    · split at h
      · split at h
        · exact absurd (List.mem_singleton.mp h) (hne5 _)
        · exact absurd h (List.not_mem_nil _)
      · exact absurd h (List.not_mem_nil _)
    · split at h
      · rename_i hcnd
        exact hcond.mp (of_decide_eq_true (decide_eq_true hcnd.2.2))
      · exact absurd h (List.not_mem_nil _)
  · intro harith
    unfold detectPerformanceIssues
    simp only [List.mem_append]
    refine Or.inr ?_
    rw [if_pos ⟨hT.1, hT.2, hcond.mpr harith⟩]
    exact List.mem_singleton.mpr rfl

/-- Witness for C6: the spec's own instances — estimated 100 with actual
1000 triggers the diagnostic (ratio 9 > 1/2); estimated 100 with actual
120 does not (ratio 0.2). -/
theorem c6_row_divergence_condition_witness :
    (("Row estimate significantly off: estimated " ++
        formatNumber (some (100 : Nat)) ++ ", actual " ++
        formatNumber (some (1000 : Nat))) ∈
      detectPerformanceIssues
        { nodeType := "Example", rows := some 100, actualRows := some 1000 }) ∧
    ¬ (("Row estimate significantly off: estimated " ++
        formatNumber (some (100 : Nat)) ++ ", actual " ++
        formatNumber (some (120 : Nat))) ∈
      detectPerformanceIssues
        { nodeType := "Example", rows := some 100, actualRows := some 120 }) :=
  ⟨(c6_row_divergence_condition
      { nodeType := "Example", rows := some 100, actualRows := some 1000 }
      100 1000 rfl rfl (by decide) (by decide)).mpr (by decide),
   fun h =>
    absurd ((c6_row_divergence_condition
      { nodeType := "Example", rows := some 100, actualRows := some 120 }
      100 120 rfl rfl (by decide) (by decide)).mp h) (by decide)⟩

/-- Counterexample to C6 as stated: `estimatedRows = 100` present and
nonzero, `actualRows = 0` present, and `|0 − 100| / 100 = 1 > 0.5`, yet
the pass emits nothing — `actualRows = 0` is falsy and short-circuits the
check. -/
theorem c6_counterexample :
    2 * (((0 : Nat) : Int) - ((100 : Nat) : Int)).natAbs > 100 ∧
    detectPerformanceIssues
      { nodeType := "Example", rows := some 100, actualRows := some 0 } = [] := by
  refine ⟨?_, ?_⟩ <;> decide

/-- The table pass only sets `tableName`/`aliasName`. -/
theorem resolveTable_shape (nt : List Char) (d : NodeData) :
    ∃ tn al, resolveTable nt d = { d with tableName := tn, aliasName := al } := by
  unfold resolveTable
  repeat' split
  all_goals exact ⟨_, _, rfl⟩

/-- The index pass only sets `indexName`. -/
theorem resolveIndex_shape (nt : List Char) (d : NodeData) :
    ∃ ix, resolveIndex nt d = { d with indexName := ix } := by
  unfold resolveIndex
  repeat' split
  all_goals exact ⟨_, rfl⟩

/-- The operation pass only sets `operation`. -/
theorem resolveOperation_shape (nt : List Char) (d : NodeData) :
    ∃ op, resolveOperation nt d = { d with operation := op } := by
  unfold resolveOperation
  repeat' split
  all_goals exact ⟨_, rfl⟩

/-- The resolver only sets the table/alias/index/operation fields; every
other field of the node passes through untouched. -/
theorem extractInfo_shape (d : NodeData) :
    ∃ tn al ix op, extractTableAndIndexInfo d =
      { d with tableName := tn, aliasName := al, indexName := ix, operation := op } := by
  obtain ⟨tn, al, h1⟩ := resolveTable_shape d.nodeType.toList d
  obtain ⟨ix, h2⟩ := resolveIndex_shape d.nodeType.toList (resolveTable d.nodeType.toList d)
  obtain ⟨op, h3⟩ := resolveOperation_shape d.nodeType.toList
    (resolveIndex d.nodeType.toList (resolveTable d.nodeType.toList d))
  refine ⟨tn, al, ix, op, ?_⟩
  show resolveOperation d.nodeType.toList
    (resolveIndex d.nodeType.toList (resolveTable d.nodeType.toList d)) = _
  rw [h3, h2, h1]

/-- C8: a header line whose content (after the arrow strip) matches the
cost-range shape with the optional ANALYZE suffix ABSENT — the first
pattern, tried first, with its optional group empty — produces a node
whose `actualTime`, `actualRows` and `loops` are absent (`none`), not
zero, while the cost/rows/width groups are taken from that first match. -/
theorem c8_no_suffix_absent_actuals (l : ParserLine) (g : List Char) (e : CostExtract)
    (hm : matchPattern1 (stripArrow l.content.toList) = some (g, e, none)) :
    (parseNodeData l).actualTime = none ∧ (parseNodeData l).actualRows = none ∧
    (parseNodeData l).loops = none ∧
    (parseNodeData l).cost = some ⟨e.startup, e.total⟩ ∧
    (parseNodeData l).rows = some e.rows ∧ (parseNodeData l).width = some e.width := by
  obtain ⟨tn, al, ix, op, hshape⟩ := extractInfo_shape
    (applyCostExtract { nodeType := String.mk (stripArrow l.content.toList), raw := l.raw }
      g e none)
  have hpd : parseNodeData l = extractTableAndIndexInfo
      (applyCostExtract { nodeType := String.mk (stripArrow l.content.toList), raw := l.raw }
        g e none) := by
    unfold parseNodeData patternNode baseNode
    rw [hm]
  rw [hpd, hshape]
  exact ⟨rfl, rfl, rfl, rfl, rfl, rfl⟩

/-- Witness for C8: the spec's sample header line with estimates but no
ANALYZE suffix. -/
theorem c8_no_suffix_absent_actuals_witness :
    matchPattern1 (stripArrow
        ("Seq Scan on orders  (cost=0.00..100.00 rows=5000 width=50)" : String).toList) =
      some ("Seq Scan on orders".toList,
        ⟨⟨0, 100⟩, ⟨10000, 100⟩, 5000, 50⟩, none) ∧
    (parseNodeData ⟨0, "Seq Scan on orders  (cost=0.00..100.00 rows=5000 width=50)", "r"⟩).actualTime = none ∧
    (parseNodeData ⟨0, "Seq Scan on orders  (cost=0.00..100.00 rows=5000 width=50)", "r"⟩).actualRows = none ∧
    (parseNodeData ⟨0, "Seq Scan on orders  (cost=0.00..100.00 rows=5000 width=50)", "r"⟩).loops = none :=
  ⟨by decide,
    (c8_no_suffix_absent_actuals
      ⟨0, "Seq Scan on orders  (cost=0.00..100.00 rows=5000 width=50)", "r"⟩
      "Seq Scan on orders".toList ⟨⟨0, 100⟩, ⟨10000, 100⟩, 5000, 50⟩ (by decide)).1,
    (c8_no_suffix_absent_actuals
      ⟨0, "Seq Scan on orders  (cost=0.00..100.00 rows=5000 width=50)", "r"⟩
      "Seq Scan on orders".toList ⟨⟨0, 100⟩, ⟨10000, 100⟩, 5000, 50⟩ (by decide)).2.1,
    (c8_no_suffix_absent_actuals
      ⟨0, "Seq Scan on orders  (cost=0.00..100.00 rows=5000 width=50)", "r"⟩
      "Seq Scan on orders".toList ⟨⟨0, 100⟩, ⟨10000, 100⟩, 5000, 50⟩ (by decide)).2.2.1⟩

/-- C7: the single-line input
`Seq Scan on orders  (cost=0.00..100.00 rows=5000 width=50)` parses to a
tree consisting of exactly one node — the root, with no children — whose
operation tag is `"Seq Scan"`, table name `"orders"`, total cost `100.00`
and row estimate `5000`; translating that tree with the root row estimate
generalised to `n` yields the large-table-scan warning exactly when
`n > 10000`, hence not for the parsed `5000`. -/
theorem c7_seq_scan_concrete :
    (parse "Seq Scan on orders  (cost=0.00..100.00 rows=5000 width=50)").root =
      some (.mk c7NodeData []) ∧
    c7NodeData.operation = some "Seq Scan" ∧
    c7NodeData.tableName = some "orders" ∧
    c7NodeData.cost.map (fun c => c.total.valEq (JNum.ofNat 100)) = some true ∧
    c7NodeData.rows = some 5000 ∧
    (∀ n : Nat,
      ((translate (setRows (.mk c7NodeData []) n)).warnings.contains
          "Large table scan - consider adding an index") = decide (n > 10000)) ∧
    ((translate (.mk c7NodeData [])).warnings.contains
        "Large table scan - consider adding an index") = false := by
  refine ⟨rfl, rfl, rfl, rfl, rfl, ?_, by decide⟩
  intro n
  have hw : (translate (setRows (.mk c7NodeData []) n)).warnings =
      (dedupFirst ((if truthyN (some n) ∧ n > 10000 then
        ["Large table scan - consider adding an index"] else []) ++ [])).filter
        (fun s => !s.isEmpty) := rfl
  rw [hw]
  by_cases hn : n > 10000
  · have ht : truthyN (some n) = true := by
      simp only [truthyN, bne_iff_ne, ne_eq, decide_not]
      omega
    rw [if_pos ⟨ht, hn⟩, decide_eq_true hn]
    rfl
  · rw [if_neg (fun h => hn h.2), decide_eq_false hn]
    rfl

end ExplainPG
